import Mathlib

/-!
Shallow embedding of the consensus/scan-orchestration core of the
0xCypherpunkAI repository:

* `VoteEngine` (vote-engine.ts): vote submission with per-agent
  replacement, consensus calculation with a quorum threshold, and the
  confidence score over matching votes.
* `SecurityScanningService` (security-scanning-service.ts): the scan
  pipeline — GitHub fetch with a TTL cache, batched agent dispatch with
  per-agent error isolation, the voting/grouping pass
  (`performAgentVoting`), and the progress/state sequence of
  `executeScan`.

JavaScript numbers are embedded as `ℚ` (the concrete values involved are
small and exact), `Math.round` as Mathlib's `round` (floor of x + 1/2,
matching JS half-up rounding), `Math.ceil` as `Int.ceil`, and
`Date.now()` timestamps as `ℕ`.  Maps keep insertion order, matching the
JS `Map` iteration semantics, and are embedded as association lists.
-/

/-- Severity union type from types.ts. -/
inductive Severity where
  | CRITICAL
  | HIGH
  | MEDIUM
  | LOW
  | INFO
deriving DecidableEq, Repr

/-- The string value of a severity, as interpolated into group keys. -/
def Severity.str : Severity → String
  | .CRITICAL => "CRITICAL"
  | .HIGH => "HIGH"
  | .MEDIUM => "MEDIUM"
  | .LOW => "LOW"
  | .INFO => "INFO"

/-- Vote union type from types.ts. -/
inductive VoteDecision where
  | CONFIRMED
  | REJECTED
  | UNCERTAIN
deriving DecidableEq, Repr

/-- Scan status union type from types.ts. -/
inductive ScanStatus where
  | PENDING
  | SCANNING
  | VOTING
  | COMPLETED
  | FAILED
deriving DecidableEq, Repr

/-- VulnerabilityFinding from types.ts (location inlined as file/line). -/
structure Finding where
  id : String
  type : String
  severity : Severity
  title : String
  description : String
  file : String
  line : ℕ
  recommendation : String
  confidence : ℚ
deriving DecidableEq, Repr

/-- AgentVote from types.ts (timestamp as a natural number). -/
structure AgentVote where
  agentId : String
  agentName : String
  findingId : String
  vote : VoteDecision
  confidence : ℚ
  reasoning : String
  timestamp : ℕ
deriving DecidableEq, Repr

/-- VoteEngineConfig from types.ts.  `agentWeights` is the optional
record of per-agent multipliers. -/
structure VoteEngineConfig where
  consensusThreshold : ℚ
  minimumVotes : ℕ
  timeoutMinutes : ℕ
  weightingEnabled : Bool
  agentWeights : Option (String → Option ℚ)

/-- The voteBreakdown record (keys are the three decision strings). -/
structure VoteBreakdown where
  confirmed : ℕ
  rejected : ℕ
  uncertain : ℕ
deriving DecidableEq, Repr

/-- Return value of VoteEngine.calculateConsensus. -/
structure ConsensusResult where
  consensusReached : Bool
  finalDecision : VoteDecision
  confidenceScore : ℤ
  voteBreakdown : VoteBreakdown
deriving DecidableEq, Repr

namespace VoteEngine

/-- `agentWeights[id] || 1.0`: a missing weight, or a weight of `0`
(JS `||` treats `0` as falsy), falls back to `1.0`. -/
def weightOf (w : String → Option ℚ) (id : String) : ℚ :=
  match w id with
  | some x => if x = 0 then 1 else x
  | none => 1

/-- VoteEngine.applyWeights: scale each vote's confidence by the agent's
weight; with no weight record, return the votes unchanged. -/
def applyWeights (cfg : VoteEngineConfig) (votes : List AgentVote) : List AgentVote :=
  match cfg.agentWeights with
  | none => votes
  | some w => votes.map (fun v => { v with confidence := v.confidence * weightOf w v.agentId })

/-- The `weightedVotes` local of calculateConsensus. -/
def weightedVotes (cfg : VoteEngineConfig) (votes : List AgentVote) : List AgentVote :=
  if cfg.weightingEnabled then applyWeights cfg votes else votes

/-- Number of votes carrying a given decision (the reduce-built
voteBreakdown entry). -/
def countVote (votes : List AgentVote) (d : VoteDecision) : ℕ :=
  votes.countP (fun v => decide (v.vote = d))

/-- VoteEngine.calculateConfidenceScore: mean confidence of the votes
matching the decision, scaled by consensus strength, rounded. -/
def calculateConfidenceScore (votes : List AgentVote) (decision : VoteDecision) : ℤ :=
  if votes.isEmpty then 0
  else
    let matching := votes.filter (fun v => decide (v.vote = decision))
    if matching.isEmpty then 0
    else
      let avgConfidence : ℚ := (matching.map (fun v => v.confidence)).sum / matching.length
      let consensusStrength : ℚ := (matching.length : ℚ) / votes.length
      round (avgConfidence * consensusStrength)

/-- VoteEngine.calculateConsensus. -/
def calculateConsensus (cfg : VoteEngineConfig) (votes : List AgentVote) : ConsensusResult :=
  if votes.isEmpty then
    { consensusReached := false
      finalDecision := .UNCERTAIN
      confidenceScore := 0
      voteBreakdown := ⟨0, 0, 0⟩ }
  else
    let wv := weightedVotes cfg votes
    let breakdown : VoteBreakdown := ⟨countVote wv .CONFIRMED, countVote wv .REJECTED, countVote wv .UNCERTAIN⟩
    let confirmedPercentage : ℚ := (countVote wv .CONFIRMED : ℚ) / wv.length
    let rejectedPercentage : ℚ := (countVote wv .REJECTED : ℚ) / wv.length
    if cfg.consensusThreshold ≤ confirmedPercentage then
      { consensusReached := true
        finalDecision := .CONFIRMED
        confidenceScore := calculateConfidenceScore wv .CONFIRMED
        voteBreakdown := breakdown }
    else if cfg.consensusThreshold ≤ rejectedPercentage then
      { consensusReached := true
        finalDecision := .REJECTED
        confidenceScore := calculateConfidenceScore wv .REJECTED
        voteBreakdown := breakdown }
    else
      { consensusReached := false
        finalDecision := .UNCERTAIN
        confidenceScore := calculateConfidenceScore wv .UNCERTAIN
        voteBreakdown := breakdown }

/-- Inner update of VoteEngine.submitVote on one group's vote list:
replace the first vote with the same agentId in place, else push. -/
def submitVoteList (votes : List AgentVote) (v : AgentVote) : List AgentVote :=
  match votes.findIdx? (fun w => decide (w.agentId = v.agentId)) with
  | some i => votes.set i v
  | none => votes ++ [v]

/-- VoteEngine.submitVote acting on the `pendingVotes` map (association
list in insertion order). -/
def submitVote (st : List (String × List AgentVote)) (v : AgentVote) :
    List (String × List AgentVote) :=
  match st with
  | [] => [(v.findingId, submitVoteList [] v)]
  | (k, vs) :: rest =>
    if k = v.findingId then (k, submitVoteList vs v) :: rest
    else (k, vs) :: submitVote rest v

/-- VoteEngine.getVotes: the stored list for a finding id, or `[]`. -/
def getVotes (st : List (String × List AgentVote)) (fid : String) : List AgentVote :=
  match st with
  | [] => []
  | (k, vs) :: rest => if k = fid then vs else getVotes rest fid

/-- State of `pendingVotes` after a sequence of submitVote calls starting
from the empty map. -/
def runVotes (history : List AgentVote) : List (String × List AgentVote) :=
  history.foldl submitVote []

end VoteEngine

/-- One entry of the analysisResults array handed to performAgentVoting. -/
structure AnalysisResult where
  agentId : String
  findings : List Finding
deriving DecidableEq, Repr

/-- Return value of performAgentVoting. -/
structure VotingOutcome where
  confirmedFindings : List Finding
  averageConfidence : ℚ
  totalVotes : ℕ
deriving DecidableEq, Repr

namespace SecurityScanningService

/-- The group key string of performAgentVoting. -/
def groupKeyOf (f : Finding) : String :=
  f.type ++ "-" ++ f.severity.str

/-- Insertion into the findingGroups map: push onto an existing group's
array, or add a new key at the end (JS Map insertion order). -/
def insertFinding (gs : List (String × List Finding)) (f : Finding) :
    List (String × List Finding) :=
  match gs with
  | [] => [(groupKeyOf f, [f])]
  | (k, ms) :: rest =>
    if k = groupKeyOf f then (k, ms ++ [f]) :: rest
    else (k, ms) :: insertFinding rest f

/-- The findingGroups map built from all findings in order. -/
def buildGroups (fs : List Finding) : List (String × List Finding) :=
  fs.foldl insertFinding []

/-- findings.reduce((best, current) => current.confidence > best.confidence
? current : best): the first finding of maximal confidence. -/
def reduceBest : List Finding → Option Finding
  | [] => none
  | f :: rest =>
    some (rest.foldl (fun best cur => if best.confidence < cur.confidence then cur else best) f)

/-- Math.ceil(totalAgents * 0.6): required votes for consensus. -/
def requiredVotes (totalAgents : ℕ) : ℕ :=
  (⌈(totalAgents : ℚ) * (3 / 5)⌉).toNat

/-- The confirmed finding built from a group's representative. -/
def mkConfirmed (totalAgents : ℕ) (scanId : String) (idx : ℕ) (voteCount : ℕ)
    (best : Finding) : Finding :=
  let votePercentage : ℚ := (voteCount : ℚ) / totalAgents
  let consensusStrength : ℚ := min (votePercentage / (3 / 5)) 1
  { best with
    confidence := ((round (best.confidence * consensusStrength) : ℤ) : ℚ)
    id := scanId ++ "-confirmed-" ++ toString idx }

/-- The voting loop over findingGroups: groups at or above the required
vote count emit a confirmed finding with a fresh per-scan index. -/
def confirmLoop (totalAgents : ℕ) (scanId : String) :
    List (String × List Finding) → ℕ → List Finding
  | [], _ => []
  | (_, ms) :: rest, idx =>
    match reduceBest ms with
    | none => confirmLoop totalAgents scanId rest idx
    | some best =>
      if requiredVotes totalAgents ≤ ms.length then
        mkConfirmed totalAgents scanId idx ms.length best ::
          confirmLoop totalAgents scanId rest (idx + 1)
      else confirmLoop totalAgents scanId rest idx

/-- `finding.type.includes('gas')`: contiguous-substring containment. -/
def typeHasGas (s : String) : Bool :=
  decide ("gas".data <:+: s.data)

/-- The categoryOrder sort rank of performAgentVoting. -/
def categoryOrder (f : Finding) : ℕ :=
  match f.severity with
  | .CRITICAL => 0
  | .HIGH => 1
  | .MEDIUM => 2
  | .LOW => if typeHasGas f.type then 4 else 3
  | .INFO => 5

end SecurityScanningService

/-- The order realized by the comparator passed to `sort`: ascending
categoryOrder rank, ties broken by descending confidence. -/
def findingLE (a b : Finding) : Prop :=
  SecurityScanningService.categoryOrder a < SecurityScanningService.categoryOrder b ∨
    (SecurityScanningService.categoryOrder a = SecurityScanningService.categoryOrder b ∧
      b.confidence ≤ a.confidence)

instance : DecidableRel findingLE := fun a b => by
  unfold findingLE; infer_instance

instance : IsTotal Finding findingLE where
  total a b := by
    unfold findingLE
    rcases Nat.lt_trichotomy (SecurityScanningService.categoryOrder a)
        (SecurityScanningService.categoryOrder b) with h | h | h
    · exact Or.inl (Or.inl h)
    · rcases le_total b.confidence a.confidence with hc | hc
      · exact Or.inl (Or.inr ⟨h, hc⟩)
      · exact Or.inr (Or.inr ⟨h.symm, hc⟩)
    · exact Or.inr (Or.inl h)

instance : IsTrans Finding findingLE where
  trans a b c hab hbc := by
    unfold findingLE at *
    rcases hab with h1 | ⟨h1, hc1⟩
    · rcases hbc with h2 | ⟨h2, _⟩
      · exact Or.inl (h1.trans h2)
      · exact Or.inl (h2 ▸ h1)
    · rcases hbc with h2 | ⟨h2, hc2⟩
      · exact Or.inl (h1 ▸ h2)
      · exact Or.inr ⟨h1.trans h2, hc2.trans hc1⟩

namespace SecurityScanningService

/-- The confirmedFindings.sort(...) call, embedded as an insertion sort
with the comparator's order. -/
def sortFindings (fs : List Finding) : List Finding :=
  List.insertionSort findingLE fs

/-- SecurityScanningService.performAgentVoting: group findings by
(type, severity) key, confirm groups meeting the 60% agent quorum with
the highest-confidence representative, average the confirmed
confidences (divided by 100), and sort the output. -/
def performAgentVoting (analysisResults : List AnalysisResult) (scanId : String) :
    VotingOutcome :=
  let allFindings := (analysisResults.map (fun r => r.findings)).flatten
  let findingGroups := buildGroups allFindings
  let totalAgents := analysisResults.length
  let confirmedFindings := confirmLoop totalAgents scanId findingGroups 0
  let confirmedCount := confirmedFindings.length
  let totalConfidence : ℚ := (confirmedFindings.map (fun f => f.confidence)).sum
  let averageConfidence : ℚ :=
    if 0 < confirmedCount then totalConfidence / confirmedCount / 100 else 0
  { confirmedFindings := sortFindings confirmedFindings
    averageConfidence := averageConfidence
    totalVotes := allFindings.length }

end SecurityScanningService

namespace SecurityScanningService

/-- A fetched source file: (path, content). -/
abbrev GHFile := String × String

/-- One githubCache entry: { data, timestamp }. -/
structure GHCacheEntry where
  data : List GHFile
  timestamp : ℕ
deriving DecidableEq, Repr

/-- GITHUB_CACHE_TTL = 10 * 60 * 1000 ms. -/
def GITHUB_CACHE_TTL : ℕ := 10 * 60 * 1000

/-- githubCache.get. -/
def cacheLookup (cache : List (String × GHCacheEntry)) (key : String) :
    Option GHCacheEntry :=
  match cache with
  | [] => none
  | (k, e) :: rest => if k = key then some e else cacheLookup rest key

/-- githubCache.set (overwrite in place, else append). -/
def cacheSet (cache : List (String × GHCacheEntry)) (key : String) (e : GHCacheEntry) :
    List (String × GHCacheEntry) :=
  match cache with
  | [] => [(key, e)]
  | (k, e0) :: rest =>
    if k = key then (k, e) :: rest else (k, e0) :: cacheSet rest key e

/-- SecurityScanningService.fetchFromGitHub: consult the cache; on a hit
within TTL return the cached data with no upstream call, otherwise fetch
upstream (the `upstream` argument is the value the network returns at
this instant) and store it.  Returns (result, new cache, upstream call
count for this invocation). -/
def fetchFromGitHub (cache : List (String × GHCacheEntry)) (key : String) (now : ℕ)
    (upstream : List GHFile) : List GHFile × List (String × GHCacheEntry) × ℕ :=
  match cacheLookup cache key with
  | some e =>
    if now - e.timestamp < GITHUB_CACHE_TTL then (e.data, cache, 0)
    else (upstream, cacheSet cache key ⟨upstream, now⟩, 1)
  | none => (upstream, cacheSet cache key ⟨upstream, now⟩, 1)

/-- `name.endsWith('.sol')`: suffix test on the character list. -/
def isSolName (name : String) : Bool :=
  decide (".sol".data <:+ name.data)

end SecurityScanningService

mutual

/-- The GitHub contents API response for one path, as the recursive
fetch walks it.  `fileItem` is a file entry (name, path, content,
whether a download_url is present); `dirItem` is a directory listing;
`failItem` is a provider error for that path (its message). -/
inductive GHItem where
  | fileItem (path name content : String) (hasUrl : Bool)
  | dirItem (listing : GHListing)
  | failItem (msg : String)

/-- A directory listing, as a cons-list of items. -/
inductive GHListing where
  | nil
  | cons (item : GHItem) (rest : GHListing)

end

namespace SecurityScanningService

/-- The message wrapper of performGitHubFetch's catch block:
`Could not fetch from GitHub: ${error.message}`. -/
def wrapErr (m : String) : String :=
  "Could not fetch from GitHub: " ++ m

/-- Concatenation of the per-entry results of a directory's Promise.all
(the first error rejects the whole directory fetch). -/
def ghCombine (a b : Except String (List GHFile)) : Except String (List GHFile) :=
  match a, b with
  | .ok xs, .ok ys => .ok (xs ++ ys)
  | .error e, _ => .error e
  | .ok _, .error e => .error e

/-- A subdirectory listing handled as performGitHubFetch handles a
recursive call: any error below is re-wrapped by this level's catch. -/
def ghWrap (r : Except String (List GHFile)) : Except String (List GHFile) :=
  match r with
  | .ok fs => .ok fs
  | .error e => .error (wrapErr e)

mutual

/-- SecurityScanningService.performGitHubFetch on one response: a single
file is returned when its name ends in .sol (else an empty list), a
directory collects its entries, and a provider error throws the wrapped
message. -/
def performGitHubFetch : GHItem → Except String (List GHFile)
  | .failItem m => .error (wrapErr m)
  | .fileItem path name content _ =>
    if isSolName name then .ok [(path, content)] else .ok []
  | .dirItem listing => ghWrap (fetchDirEntries listing)

/-- The Promise.all over a directory listing: .sol files with a
download_url contribute their content, subdirectories recurse (their
errors already wrapped at their own level), other entries contribute
nothing. -/
def fetchDirEntries : GHListing → Except String (List GHFile)
  | .nil => .ok []
  | .cons (.fileItem path name content hasUrl) rest =>
    ghCombine (.ok (if isSolName name && hasUrl then [(path, content)] else []))
      (fetchDirEntries rest)
  | .cons (.dirItem l) rest =>
    ghCombine (ghWrap (fetchDirEntries l)) (fetchDirEntries rest)
  | .cons (.failItem m) rest =>
    ghCombine (.error (wrapErr m)) (fetchDirEntries rest)

end

mutual

/-- Whether a response tree contains any file the fetch would collect
(a .sol file, with a download_url when listed inside a directory). -/
def itemHasSol : GHItem → Bool
  | .failItem _ => false
  | .fileItem _ name _ _ => isSolName name
  | .dirItem listing => listingHasSol listing

/-- Directory-listing side of `itemHasSol`. -/
def listingHasSol : GHListing → Bool
  | .nil => false
  | .cons (.fileItem _ name _ hasUrl) rest => (isSolName name && hasUrl) || listingHasSol rest
  | .cons (.dirItem l) rest => listingHasSol l || listingHasSol rest
  | .cons (.failItem _) rest => listingHasSol rest

end

mutual

/-- Whether every provider response in the tree succeeds. -/
def itemOk : GHItem → Bool
  | .failItem _ => false
  | .fileItem _ _ _ _ => true
  | .dirItem listing => listingOk listing

/-- Directory-listing side of `itemOk`. -/
def listingOk : GHListing → Bool
  | .nil => true
  | .cons (.fileItem _ _ _ _) rest => listingOk rest
  | .cons (.dirItem l) rest => listingOk l && listingOk rest
  | .cons (.failItem _) _ => false

end

end SecurityScanningService

/-- One registered agent in executeScan's dispatch, together with the
outcome of its (external) analysis call: `some findings` for a normal
return, `none` when the invocation throws. -/
structure AgentSpec where
  agentId : String
  agentName : String
  outcome : Option (List Finding)
deriving DecidableEq, Repr

namespace SecurityScanningService

/-- triggerAgentAnalysis followed by the batch-level catch: a normal
return has each finding's id prefixed with the scan id; a throwing
invocation is caught and contributes an empty findings list. -/
def agentResultOf (scanId : String) (a : AgentSpec) : AnalysisResult :=
  { agentId := a.agentId
    findings :=
      match a.outcome with
      | some fs => fs.map (fun f => { f with id := scanId ++ "-" ++ f.id })
      | none => [] }

/-- The batching loop: agents.slice(i, i + CONCURRENCY_LIMIT). -/
def chunksOf (n : ℕ) (l : List AgentSpec) : List (List AgentSpec) :=
  if h : l = [] ∨ n = 0 then []
  else l.take n :: chunksOf n (l.drop n)
termination_by l.length
decreasing_by
  rcases not_or.mp h with ⟨hl, hn⟩
  calc (l.drop n).length = l.length - n := List.length_drop n l
    _ < l.length := Nat.sub_lt (List.length_pos.mpr hl) (Nat.pos_of_ne_zero hn)

/-- The analysisResults array accumulated batch by batch (each batch is
awaited in full before the next starts, results pushed in order). -/
def dispatchBatches (scanId : String) (agents : List AgentSpec) : List AnalysisResult :=
  ((chunksOf 3 agents).map (fun b => b.map (agentResultOf scanId))).flatten

/-- Final observable fields of a scan record. -/
structure ScanOutcome where
  status : ScanStatus
  findings : List Finding
  finalConfidenceScore : ℚ
  totalVotes : ℕ
  consensusReached : Bool
deriving DecidableEq, Repr

/-- SecurityScanningService.executeScan, as a function from the fetch
result and the per-agent analysis outcomes to the scan's terminal
fields.  A fetch (or other orchestration-level) error is caught by the
outer catch and marks the scan FAILED; agent-level failures never
escape the batch loop. -/
def executeScan (scanId : String) (fetch : Except String (List GHFile))
    (agents : List AgentSpec) : ScanOutcome :=
  match fetch with
  | .error _ =>
    { status := .FAILED, findings := [], finalConfidenceScore := 0, totalVotes := 0,
      consensusReached := false }
  | .ok _files =>
    let analysisResults := dispatchBatches scanId agents
    let finalResults := performAgentVoting analysisResults scanId
    { status := .COMPLETED
      findings := finalResults.confirmedFindings
      finalConfidenceScore := finalResults.averageConfidence
      totalVotes := finalResults.totalVotes
      consensusReached := decide (0 < finalResults.confirmedFindings.length) }

/-- Cumulative completed-agent counts after each batch of 3. -/
def cumCounts (n : ℕ) : List ℕ :=
  (List.range ((n + 2) / 3)).map (fun i => min (3 * (i + 1)) n)

/-- Math.min(35 + (completedAgents / agents.length) * 50, 85), the
progress value written after each batch. -/
def batchProgress (n c : ℕ) : ℚ :=
  min (35 + (c : ℚ) / n * 50) 85

/-- The (status, progress) pairs a successful scan writes, in order,
from creation in startScan through completion.  Consecutive synchronous
assignments (such as status = COMPLETED; progress = 100) form one
atomic update, since no await separates them. -/
def scanStatesSuccess (n : ℕ) : List (ScanStatus × ℚ) :=
  [(.PENDING, 0), (.SCANNING, 5), (.SCANNING, 15), (.SCANNING, 30), (.SCANNING, 35)]
    ++ (cumCounts n).map (fun c => (.SCANNING, batchProgress n c))
    ++ [(.SCANNING, 85), (.SCANNING, 95), (.COMPLETED, 100)]

/-- The update sequence of a scan whose execution throws after its
first `k` updates: the catch (in executeScan or startScan) writes
status FAILED and progress 100. -/
def scanStatesFailed (n k : ℕ) : List (ScanStatus × ℚ) :=
  (scanStatesSuccess n).take k ++ [(.FAILED, 100)]

end SecurityScanningService

namespace SecurityScanningService

/-- The member list of the first group with the given key (`[]` when no
such group exists), mirroring findingGroups.get. -/
def groupLookup (gs : List (String × List Finding)) (k : String) : List Finding :=
  match gs with
  | [] => []
  | (k0, ms) :: rest => if k0 = k then ms else groupLookup rest k

/-- Well-formedness of the findingGroups map: members carry their
entry's key, keys are distinct, and no entry is empty. -/
def GroupsWF (gs : List (String × List Finding)) : Prop :=
  (∀ e ∈ gs, ∀ f ∈ e.2, groupKeyOf f = e.1) ∧
    (gs.map Prod.fst).Nodup ∧ (∀ e ∈ gs, e.2 ≠ [])

end SecurityScanningService

/-- The characters after the last dash of a string (the severity part of
a well-formed group key). -/
def afterLastDash (l : List Char) : List Char :=
  (l.reverse.takeWhile (fun c => !(c == '-'))).reverse

/-- A concrete finding with the given id, type, severity and confidence. -/
def sampleFinding (id ty : String) (sev : Severity) (conf : ℚ) : Finding :=
  { id := id, type := ty, severity := sev, title := "t", description := "d",
    file := "a.sol", line := 1, recommendation := "r", confidence := conf }

/-- Scenario A input to the scan-finalization path: agents 1 and 2 each
report one finding in the (reentrancy, HIGH) group (confidences 80 and
60), agent 3 reports nothing. -/
def twoOfThreeResults : List AnalysisResult :=
  [⟨"agent-1", [sampleFinding "f1" "reentrancy" .HIGH 80]⟩,
   ⟨"agent-2", [sampleFinding "f2" "reentrancy" .HIGH 60]⟩,
   ⟨"agent-3", []⟩]

/-- A directory listing containing a single non-.sol file. -/
def noSolListing : GHItem :=
  .dirItem (.cons (.fileItem "README.md" "README.md" "readme" true) .nil)

/-- A concrete vote on group g1. -/
def sampleVote (aid : String) (d : VoteDecision) (conf : ℚ) : AgentVote :=
  { agentId := aid, agentName := aid, findingId := "g1", vote := d,
    confidence := conf, reasoning := "", timestamp := 0 }

open SecurityScanningService VoteEngine

/-! ## Helper lemmas -/

theorem cacheLookup_set_self (cache : List (String × GHCacheEntry)) (key : String)
    (e : GHCacheEntry) : cacheLookup (cacheSet cache key e) key = some e := by
  induction cache with
  | nil => simp [cacheSet, cacheLookup]
  | cons h t ih =>
    obtain ⟨k0, e0⟩ := h
    by_cases hk : k0 = key <;> simp [cacheSet, cacheLookup, hk, ih]

/-! ## C5: cache hit within TTL, miss after expiry -/

/-- C5.  With the (repository, path) key absent from the cache, a first
fetch at time t1 performs exactly one upstream call and stores its
result; a second fetch at time t2 within the TTL window performs no
upstream call and returns the first fetch's stored content (even if the
upstream content has changed to d2); once the TTL has elapsed the second
fetch behaves as a miss and fetches fresh content upstream. -/
theorem github_cache_two_fetches (cache : List (String × GHCacheEntry)) (key : String)
    (t1 t2 : ℕ) (d1 d2 : List GHFile) (hmiss : cacheLookup cache key = none) :
    (fetchFromGitHub cache key t1 d1).2.2 = 1 ∧
    (fetchFromGitHub cache key t1 d1).1 = d1 ∧
    (t2 - t1 < GITHUB_CACHE_TTL →
      (fetchFromGitHub (fetchFromGitHub cache key t1 d1).2.1 key t2 d2).2.2 = 0 ∧
      (fetchFromGitHub (fetchFromGitHub cache key t1 d1).2.1 key t2 d2).1 = d1) ∧
    (GITHUB_CACHE_TTL ≤ t2 - t1 →
      (fetchFromGitHub (fetchFromGitHub cache key t1 d1).2.1 key t2 d2).2.2 = 1 ∧
      (fetchFromGitHub (fetchFromGitHub cache key t1 d1).2.1 key t2 d2).1 = d2) := by
  have h1 : fetchFromGitHub cache key t1 d1 = (d1, cacheSet cache key ⟨d1, t1⟩, 1) := by
    simp [fetchFromGitHub, hmiss]
  rw [h1]
  have h2 := cacheLookup_set_self cache key ⟨d1, t1⟩
  refine ⟨rfl, rfl, ?_, ?_⟩
  · intro hin
    simp [fetchFromGitHub, h2, hin]
  · intro hout
    simp [fetchFromGitHub, h2, Nat.not_lt.mpr hout]

/-- Witness for C5 at a concrete cold cache: the second fetch (1 ms
later) returns the first fetch's content unchanged and issues no call,
while the first fetch issued one. -/
theorem github_cache_two_fetches_witness :
    (fetchFromGitHub [] "github-repo:r:root" 0 [("a.sol", "c")]).2.2 = 1 ∧
    (fetchFromGitHub (fetchFromGitHub [] "github-repo:r:root" 0 [("a.sol", "c")]).2.1
      "github-repo:r:root" 1 []).2.2 = 0 ∧
    (fetchFromGitHub (fetchFromGitHub [] "github-repo:r:root" 0 [("a.sol", "c")]).2.1
      "github-repo:r:root" 1 []).1 = [("a.sol", "c")] := by
  have h := github_cache_two_fetches [] "github-repo:r:root" 0 1 [("a.sol", "c")] [] rfl
  have hin := h.2.2.1 (by norm_num [GITHUB_CACHE_TTL])
  exact ⟨h.1, hin.1, hin.2⟩

/-! ## C10: confirmed findings are sorted -/

/-- C10.  On every completed scan, the confirmed findings list is
sorted: ascending severity rank (CRITICAL, HIGH, MEDIUM, LOW, INFO,
with LOW findings whose type contains "gas" ranked after other LOW
findings), ties broken by descending confidence. -/
theorem completed_findings_sorted (scanId : String) (fetch : Except String (List GHFile))
    (agents : List AgentSpec)
    (hc : (executeScan scanId fetch agents).status = .COMPLETED) :
    List.Pairwise findingLE (executeScan scanId fetch agents).findings := by
  cases fetch with
  | error e => simp [executeScan] at hc
  | ok files =>
    show List.Pairwise findingLE (sortFindings _)
    exact List.sorted_insertionSort findingLE _

/-- Witness for C10 on a concrete completed scan. -/
theorem completed_findings_sorted_witness :
    List.Pairwise findingLE (executeScan "s" (.ok []) []).findings :=
  completed_findings_sorted "s" (.ok []) [] rfl

/-! ## C4: per-agent failure isolation in the dispatch loop -/

theorem chunksOf_flatten_aux (n : ℕ) (hn : n ≠ 0) :
    ∀ (k : ℕ) (l : List AgentSpec), l.length ≤ k → (chunksOf n l).flatten = l := by
  intro k
  induction k with
  | zero =>
    intro l hl
    have hnil : l = [] := List.eq_nil_of_length_eq_zero (Nat.le_zero.mp hl)
    subst hnil
    rw [chunksOf]
    simp
  | succ k ih =>
    intro l hl
    by_cases hle : l = []
    · subst hle
      rw [chunksOf]
      simp
    · rw [chunksOf]
      rw [dif_neg (by simp [hle, hn])]
      have hdrop : (l.drop n).length ≤ k := by
        rw [List.length_drop]
        have hpos : 0 < l.length := List.length_pos.mpr hle
        omega
      rw [List.flatten_cons, ih _ hdrop, List.take_append_drop]

theorem chunksOf_flatten (l : List AgentSpec) : (chunksOf 3 l).flatten = l :=
  chunksOf_flatten_aux 3 (by decide) l.length l le_rfl

theorem dispatchBatches_eq_map (scanId : String) (agents : List AgentSpec) :
    dispatchBatches scanId agents = agents.map (agentResultOf scanId) := by
  unfold dispatchBatches
  rw [← List.map_flatten, chunksOf_flatten]

/-- C4.  With a successful fetch, a scan completes regardless of
individual analyzer failures: the batched dispatch produces one result
per agent in order, a throwing agent contributes an empty findings
list, and a normally returning agent's findings are kept intact (ids
prefixed with the scan id), so the scan proceeds through voting to the
COMPLETED terminal status. -/
theorem analyzer_failure_isolated (scanId : String) (files : List GHFile)
    (agents : List AgentSpec) :
    (executeScan scanId (.ok files) agents).status = .COMPLETED ∧
    dispatchBatches scanId agents = agents.map (agentResultOf scanId) ∧
    (∀ a ∈ agents, a.outcome = none →
      agentResultOf scanId a = { agentId := a.agentId, findings := [] }) ∧
    (∀ a ∈ agents, ∀ fs, a.outcome = some fs →
      agentResultOf scanId a =
        { agentId := a.agentId,
          findings := fs.map (fun f => { f with id := scanId ++ "-" ++ f.id }) }) := by
  refine ⟨rfl, dispatchBatches_eq_map scanId agents, ?_, ?_⟩
  · intro a _ ha
    simp [agentResultOf, ha]
  · intro a _ fs ha
    simp [agentResultOf, ha]

/-- Witness for C4: one throwing agent next to one normal agent; the
scan completes, the thrower contributes no findings, and the normal
agent's finding survives. -/
theorem analyzer_failure_isolated_witness :
    (executeScan "s" (.ok []) [⟨"a1", "A1", none⟩,
        ⟨"a2", "A2", some [sampleFinding "f1" "reentrancy" .HIGH 80]⟩]).status = .COMPLETED ∧
    agentResultOf "s" ⟨"a1", "A1", none⟩ = { agentId := "a1", findings := [] } ∧
    agentResultOf "s" ⟨"a2", "A2", some [sampleFinding "f1" "reentrancy" .HIGH 80]⟩ =
      { agentId := "a2",
        findings := [{ sampleFinding "f1" "reentrancy" .HIGH 80 with id := "s" ++ "-" ++ "f1" }] } := by
  have h := analyzer_failure_isolated "s" []
    [⟨"a1", "A1", none⟩, ⟨"a2", "A2", some [sampleFinding "f1" "reentrancy" .HIGH 80]⟩]
  refine ⟨h.1, h.2.2.1 ⟨"a1", "A1", none⟩ (List.Mem.head _) rfl, ?_⟩
  have h2 := h.2.2.2 ⟨"a2", "A2", some [sampleFinding "f1" "reentrancy" .HIGH 80]⟩
    (List.Mem.tail _ (List.Mem.head _)) [sampleFinding "f1" "reentrancy" .HIGH 80] rfl
  simpa [sampleFinding] using h2

/-! ## C2: quorum decides consensus, inclusively, ignoring minimumVotes -/

theorem countVote_applyWeights (cfg : VoteEngineConfig) (votes : List AgentVote)
    (d : VoteDecision) : countVote (applyWeights cfg votes) d = countVote votes d := by
  unfold applyWeights countVote
  cases cfg.agentWeights with
  | none => rfl
  | some w => rw [List.countP_map]; rfl

theorem length_applyWeights (cfg : VoteEngineConfig) (votes : List AgentVote) :
    (applyWeights cfg votes).length = votes.length := by
  unfold applyWeights
  cases cfg.agentWeights with
  | none => rfl
  | some w => exact List.length_map _ _

theorem countVote_weightedVotes (cfg : VoteEngineConfig) (votes : List AgentVote)
    (d : VoteDecision) : countVote (weightedVotes cfg votes) d = countVote votes d := by
  unfold weightedVotes
  split
  · exact countVote_applyWeights cfg votes d
  · rfl

theorem length_weightedVotes (cfg : VoteEngineConfig) (votes : List AgentVote) :
    (weightedVotes cfg votes).length = votes.length := by
  unfold weightedVotes
  split
  · exact length_applyWeights cfg votes
  · rfl

theorem countVote_confirmed_add_rejected_le (votes : List AgentVote) :
    countVote votes .CONFIRMED + countVote votes .REJECTED ≤ votes.length := by
  induction votes with
  | nil => simp [countVote]
  | cons v t ih =>
    simp only [countVote, List.countP_cons, List.length_cons] at *
    cases hv : v.vote <;> simp [hv] <;> omega

theorem consensus_frac_sum_le_one (votes : List AgentVote) (hne : votes ≠ []) :
    (countVote votes .CONFIRMED : ℚ) / votes.length +
      (countVote votes .REJECTED : ℚ) / votes.length ≤ 1 := by
  have hn : (0 : ℚ) < votes.length := by
    exact_mod_cast List.length_pos.mpr hne
  rw [div_add_div_same, div_le_one hn]
  exact_mod_cast countVote_confirmed_add_rejected_le votes

theorem calculateConsensus_decision (cfg : VoteEngineConfig) (votes : List AgentVote)
    (hne : votes ≠ []) :
    ((calculateConsensus cfg votes).finalDecision,
      (calculateConsensus cfg votes).consensusReached) =
      if cfg.consensusThreshold ≤ (countVote votes .CONFIRMED : ℚ) / votes.length then
        (.CONFIRMED, true)
      else if cfg.consensusThreshold ≤ (countVote votes .REJECTED : ℚ) / votes.length then
        (.REJECTED, true)
      else (.UNCERTAIN, false) := by
  have hie : votes.isEmpty = false := by
    cases votes with
    | nil => exact absurd rfl hne
    | cons a t => rfl
  simp only [calculateConsensus, hie, Bool.false_eq_true, if_false,
    countVote_weightedVotes, length_weightedVotes]
  split_ifs <;> rfl

/-- C2.  On a non-empty vote list the quorum alone decides: the result
is CONFIRMED and reached exactly when the confirmed fraction is at least
the threshold (inclusively, so a fraction equal to the threshold
confirms), REJECTED and reached exactly when the rejected fraction
reaches the threshold (unconditionally so whenever the threshold
exceeds 1/2, as the deployed 0.6 does), UNCERTAIN and not reached
otherwise — and the `minimumVotes` field never affects the result. -/
theorem calculateConsensus_quorum (cfg : VoteEngineConfig) (votes : List AgentVote)
    (hne : votes ≠ []) :
    ((calculateConsensus cfg votes).finalDecision = .CONFIRMED ∧
        (calculateConsensus cfg votes).consensusReached = true ↔
      cfg.consensusThreshold ≤ (countVote votes .CONFIRMED : ℚ) / votes.length) ∧
    ((calculateConsensus cfg votes).finalDecision = .REJECTED ∧
        (calculateConsensus cfg votes).consensusReached = true ↔
      ((countVote votes .CONFIRMED : ℚ) / votes.length < cfg.consensusThreshold ∧
        cfg.consensusThreshold ≤ (countVote votes .REJECTED : ℚ) / votes.length)) ∧
    (1 / 2 < cfg.consensusThreshold →
      ((calculateConsensus cfg votes).finalDecision = .REJECTED ∧
          (calculateConsensus cfg votes).consensusReached = true ↔
        cfg.consensusThreshold ≤ (countVote votes .REJECTED : ℚ) / votes.length)) ∧
    ((calculateConsensus cfg votes).finalDecision = .UNCERTAIN ∧
        (calculateConsensus cfg votes).consensusReached = false ↔
      ((countVote votes .CONFIRMED : ℚ) / votes.length < cfg.consensusThreshold ∧
        (countVote votes .REJECTED : ℚ) / votes.length < cfg.consensusThreshold)) ∧
    ((countVote votes .CONFIRMED : ℚ) / votes.length = cfg.consensusThreshold →
      (calculateConsensus cfg votes).finalDecision = .CONFIRMED ∧
        (calculateConsensus cfg votes).consensusReached = true) ∧
    (∀ m : ℕ, calculateConsensus { cfg with minimumVotes := m } votes =
      calculateConsensus cfg votes) := by
  have hd := calculateConsensus_decision cfg votes hne
  set cFrac : ℚ := (countVote votes .CONFIRMED : ℚ) / votes.length with hc
  set rFrac : ℚ := (countVote votes .REJECTED : ℚ) / votes.length with hr
  have hsum : cFrac + rFrac ≤ 1 := consensus_frac_sum_le_one votes hne
  by_cases h1 : cfg.consensusThreshold ≤ cFrac
  · rw [if_pos h1] at hd
    have hfd : (calculateConsensus cfg votes).finalDecision = .CONFIRMED :=
      congrArg Prod.fst hd
    have hcr : (calculateConsensus cfg votes).consensusReached = true :=
      congrArg Prod.snd hd
    refine ⟨⟨fun _ => h1, fun _ => ⟨hfd, hcr⟩⟩, ⟨?_, ?_⟩, ?_, ⟨?_, ?_⟩, fun _ => ⟨hfd, hcr⟩, ?_⟩
    · intro hcontra
      rw [hfd] at hcontra
      exact absurd hcontra.1 (by simp)
    · intro hcontra
      exact absurd h1 (not_le.mpr hcontra.1)
    · intro ht
      constructor
      · intro hcontra
        rw [hfd] at hcontra
        exact absurd hcontra.1 (by simp)
      · intro h2
        exfalso
        have : (1 : ℚ) < cfg.consensusThreshold + cfg.consensusThreshold := by linarith
        linarith [le_trans (add_le_add h1 h2) hsum]
    · intro hcontra
      rw [hfd] at hcontra
      exact absurd hcontra.1 (by simp)
    · intro hcontra
      exact absurd h1 (not_le.mpr hcontra.1)
    · intro m
      cases cfg
      rfl
  · rw [if_neg h1] at hd
    have h1' : cFrac < cfg.consensusThreshold := not_le.mp h1
    by_cases h2 : cfg.consensusThreshold ≤ rFrac
    · rw [if_pos h2] at hd
      have hfd : (calculateConsensus cfg votes).finalDecision = .REJECTED :=
        congrArg Prod.fst hd
      have hcr : (calculateConsensus cfg votes).consensusReached = true :=
        congrArg Prod.snd hd
      refine ⟨⟨?_, fun hcc => absurd hcc h1⟩, ⟨fun _ => ⟨h1', h2⟩, fun _ => ⟨hfd, hcr⟩⟩,
        fun _ => ⟨fun _ => h2, fun _ => ⟨hfd, hcr⟩⟩, ⟨?_, ?_⟩, fun hcc => absurd hcc.ge h1, ?_⟩
      · intro hcontra
        rw [hfd] at hcontra
        exact absurd hcontra.1 (by simp)
      · intro hcontra
        rw [hfd] at hcontra
        exact absurd hcontra.1 (by simp)
      · intro hcontra
        exact absurd h2 (not_le.mpr hcontra.2)
      · intro m
        cases cfg
        rfl
    · rw [if_neg h2] at hd
      have h2' : rFrac < cfg.consensusThreshold := not_le.mp h2
      have hfd : (calculateConsensus cfg votes).finalDecision = .UNCERTAIN :=
        congrArg Prod.fst hd
      have hcr : (calculateConsensus cfg votes).consensusReached = false :=
        congrArg Prod.snd hd
      refine ⟨⟨?_, fun hcc => absurd hcc h1⟩, ⟨?_, fun hcc => absurd hcc.2 h2⟩,
        fun _ => ⟨?_, fun hcc => absurd hcc h2⟩, ⟨fun _ => ⟨h1', h2'⟩, fun _ => ⟨hfd, hcr⟩⟩,
        fun hcc => absurd hcc.ge h1, ?_⟩
      · intro hcontra
        rw [hfd] at hcontra
        exact absurd hcontra.1 (by simp)
      · intro hcontra
        rw [hfd] at hcontra
        exact absurd hcontra.1 (by simp)
      · intro hcontra
        rw [hfd] at hcontra
        exact absurd hcontra.1 (by simp)
      · intro m
        cases cfg
        rfl

/-- Witness for C2: three votes CONFIRMED/CONFIRMED/REJECTED at
threshold 0.6 — the confirmed fraction 2/3 meets the quorum, so the
decision is CONFIRMED with reached = true. -/
theorem calculateConsensus_quorum_witness :
    (calculateConsensus ⟨3/5, 2, 5, false, none⟩
        [sampleVote "a1" .CONFIRMED 80, sampleVote "a2" .CONFIRMED 60,
          sampleVote "a3" .REJECTED 90]).finalDecision = .CONFIRMED ∧
    (calculateConsensus ⟨3/5, 2, 5, false, none⟩
        [sampleVote "a1" .CONFIRMED 80, sampleVote "a2" .CONFIRMED 60,
          sampleVote "a3" .REJECTED 90]).consensusReached = true := by
  have h := calculateConsensus_quorum ⟨3/5, 2, 5, false, none⟩
    [sampleVote "a1" .CONFIRMED 80, sampleVote "a2" .CONFIRMED 60,
      sampleVote "a3" .REJECTED 90] (by simp)
  refine h.1.mpr ?_
  have hcv : countVote [sampleVote "a1" .CONFIRMED 80, sampleVote "a2" .CONFIRMED 60,
      sampleVote "a3" .REJECTED 90] .CONFIRMED = 2 := by
    simp [countVote, sampleVote, List.countP_cons]
  rw [hcv]
  norm_num

/-! ## C8: at most one vote per analyzer per finding group -/

theorem list_set_self {α : Type} : ∀ (l : List α) (i : ℕ) (h : i < l.length),
    l.set i (l.get ⟨i, h⟩) = l
  | _ :: _, 0, _ => rfl
  | a :: t, i + 1, h => by
    simp only [List.set_cons_succ, List.get_cons_succ, List.cons.injEq, true_and]
    exact list_set_self t i (by simpa using h)

theorem submitVoteList_append (votes : List AgentVote) (v : AgentVote)
    (h : ∀ w ∈ votes, w.agentId ≠ v.agentId) :
    submitVoteList votes v = votes ++ [v] := by
  have hn : votes.findIdx? (fun w => decide (w.agentId = v.agentId)) = none := by
    rw [List.findIdx?_eq_none_iff]
    intro w hw
    simp [h w hw]
  simp [submitVoteList, hn]

theorem submitVoteList_replace (votes : List AgentVote) (v : AgentVote)
    (h : ∃ w ∈ votes, w.agentId = v.agentId) :
    ∃ i, ∃ hi : i < votes.length, (votes.get ⟨i, hi⟩).agentId = v.agentId ∧
      submitVoteList votes v = votes.set i v := by
  obtain ⟨w, hw, hwa⟩ := h
  have hne : votes.findIdx? (fun w => decide (w.agentId = v.agentId)) ≠ none := by
    intro hnone
    rw [List.findIdx?_eq_none_iff] at hnone
    have := hnone w hw
    simp [hwa] at this
  obtain ⟨i, hi⟩ := Option.ne_none_iff_exists'.mp hne
  obtain ⟨hlt, hp, _⟩ := List.findIdx?_eq_some_iff_getElem.mp hi
  refine ⟨i, hlt, by simpa using hp, ?_⟩
  simp [submitVoteList, hi]

theorem submitVoteList_nodup (votes : List AgentVote) (v : AgentVote)
    (h : (votes.map (fun w => w.agentId)).Nodup) :
    ((submitVoteList votes v).map (fun w => w.agentId)).Nodup := by
  by_cases hex : ∃ w ∈ votes, w.agentId = v.agentId
  · obtain ⟨i, hi, hagent, heq⟩ := submitVoteList_replace votes v hex
    rw [heq, List.map_set]
    have hmap : (votes.map (fun w => w.agentId)).set i v.agentId =
        votes.map (fun w => w.agentId) := by
      have hlen : i < (votes.map (fun w => w.agentId)).length := by simpa using hi
      have hval : v.agentId = (votes.map (fun w => w.agentId)).get ⟨i, hlen⟩ := by
        simp [← hagent]
      rw [hval]
      exact list_set_self _ i hlen
    rw [hmap]
    exact h
  · push_neg at hex
    rw [submitVoteList_append votes v hex]
    rw [List.map_append, List.nodup_append]
    refine ⟨h, List.nodup_singleton _, ?_⟩
    intro a ha hb
    simp only [List.map_cons, List.map_nil, List.mem_singleton] at hb
    obtain ⟨w, hw, rfl⟩ := List.mem_map.mp ha
    exact hex w hw hb

theorem getVotes_submitVote (st : List (String × List AgentVote)) (v : AgentVote)
    (fid : String) :
    getVotes (submitVote st v) fid =
      if fid = v.findingId then submitVoteList (getVotes st v.findingId) v
      else getVotes st fid := by
  induction st with
  | nil =>
    by_cases h : fid = v.findingId
    · subst h
      simp [submitVote, getVotes]
    · simp [submitVote, getVotes, h, Ne.symm h]
  | cons e rest ih =>
    obtain ⟨k, vs⟩ := e
    by_cases hk : k = v.findingId
    · have hsub : submitVote ((k, vs) :: rest) v = (k, submitVoteList vs v) :: rest := by
        simp [submitVote, hk]
      rw [hsub]
      by_cases hf : fid = v.findingId
      · have hkf : k = fid := by rw [hk, hf]
        simp [getVotes, hkf, hf, hk]
      · have hkf : ¬(k = fid) := fun hc => hf (by rw [← hc, hk])
        simp [getVotes, hkf, hf]
    · have hsub : submitVote ((k, vs) :: rest) v = (k, vs) :: submitVote rest v := by
        simp [submitVote, hk]
      rw [hsub]
      by_cases hkf : k = fid
      · have hf : ¬(fid = v.findingId) := fun hc => hk (by rw [hkf, hc])
        simp [getVotes, hkf, hf]
      · simp [getVotes, hkf, hk, ih]

theorem runVotes_nodup (history : List AgentVote) :
    ∀ fid, ((getVotes (runVotes history) fid).map (fun w => w.agentId)).Nodup := by
  suffices h : ∀ st, (∀ fid, ((getVotes st fid).map (fun w => w.agentId)).Nodup) →
      ∀ fid, ((getVotes (history.foldl submitVote st) fid).map (fun w => w.agentId)).Nodup by
    refine h [] ?_
    intro fid
    simp [getVotes]
  induction history with
  | nil => exact fun st h => h
  | cons v t ih =>
    intro st h
    refine ih (submitVote st v) ?_
    intro fid
    rw [getVotes_submitVote]
    split
    · exact submitVoteList_nodup _ _ (h v.findingId)
    · exact h fid

/-- C8.  Across any sequence of submitVote calls starting from the
empty state, every finding group's stored vote list holds at most one
vote per analyzer identity; a further vote from an analyzer already
present in the group replaces that analyzer's vote in place (same
length, one position overwritten), while a vote from a new analyzer is
appended. -/
theorem submitVote_one_per_agent (history : List AgentVote) (v : AgentVote) :
    (∀ fid, ((getVotes (runVotes history) fid).map (fun w => w.agentId)).Nodup) ∧
    ((∀ w ∈ getVotes (runVotes history) v.findingId, w.agentId ≠ v.agentId) →
      getVotes (submitVote (runVotes history) v) v.findingId =
        getVotes (runVotes history) v.findingId ++ [v]) ∧
    ((∃ w ∈ getVotes (runVotes history) v.findingId, w.agentId = v.agentId) →
      (getVotes (submitVote (runVotes history) v) v.findingId).length =
        (getVotes (runVotes history) v.findingId).length ∧
      ∃ i, ∃ hi : i < (getVotes (runVotes history) v.findingId).length,
        ((getVotes (runVotes history) v.findingId).get ⟨i, hi⟩).agentId = v.agentId ∧
        getVotes (submitVote (runVotes history) v) v.findingId =
          (getVotes (runVotes history) v.findingId).set i v) := by
  refine ⟨runVotes_nodup history, ?_, ?_⟩
  · intro hnone
    rw [getVotes_submitVote, if_pos rfl]
    exact submitVoteList_append _ _ hnone
  · intro hex
    obtain ⟨i, hi, hagent, heq⟩ := submitVoteList_replace _ v hex
    rw [getVotes_submitVote, if_pos rfl, heq]
    exact ⟨List.length_set _ _ _, i, hi, hagent, rfl⟩

/-- Witness for C8: after agent a1 votes once on group g1, a second a1
vote replaces the stored vote in place, leaving one vote in the group. -/
theorem submitVote_one_per_agent_witness :
    getVotes (submitVote (runVotes [sampleVote "a1" .CONFIRMED 80])
        (sampleVote "a1" .REJECTED 50)) "g1" =
      (getVotes (runVotes [sampleVote "a1" .CONFIRMED 80]) "g1").set 0
        (sampleVote "a1" .REJECTED 50) ∧
    (getVotes (runVotes [sampleVote "a1" .CONFIRMED 80]) "g1").length = 1 := by
  have h := submitVote_one_per_agent [sampleVote "a1" .CONFIRMED 80]
    (sampleVote "a1" .REJECTED 50)
  have hgv : getVotes (runVotes [sampleVote "a1" .CONFIRMED 80])
      (sampleVote "a1" .REJECTED 50).findingId = [sampleVote "a1" .CONFIRMED 80] := by
    simp [runVotes, VoteEngine.submitVote, submitVoteList, getVotes, sampleVote]
  have hex : ∃ w ∈ getVotes (runVotes [sampleVote "a1" .CONFIRMED 80])
      (sampleVote "a1" .REJECTED 50).findingId,
      w.agentId = (sampleVote "a1" .REJECTED 50).agentId := by
    rw [hgv]
    exact ⟨sampleVote "a1" .CONFIRMED 80, List.Mem.head _, rfl⟩
  obtain ⟨hlen, i, hi, hagent, heq⟩ := h.2.2 hex
  have hi1 : i < 1 := by
    rw [hgv] at hi
    simpa using hi
  have hi0 : i = 0 := by omega
  subst hi0
  refine ⟨heq, ?_⟩
  simp [runVotes, VoteEngine.submitVote, submitVoteList, getVotes, sampleVote]

/-! ## C9: progress is monotone, within 0-100, and 100 at terminal -/

theorem batchProgress_ge (n c : ℕ) : 35 ≤ batchProgress n c := by
  unfold batchProgress
  refine le_min ?_ (by norm_num)
  have h0 : (0 : ℚ) ≤ (c : ℚ) / n * 50 := by positivity
  linarith

theorem batchProgress_le (n c : ℕ) : batchProgress n c ≤ 85 :=
  min_le_right _ _

theorem batchProgress_mono (n : ℕ) {c c' : ℕ} (h : c ≤ c') :
    batchProgress n c ≤ batchProgress n c' := by
  unfold batchProgress
  rcases Nat.eq_zero_or_pos n with hn | hn
  · subst hn
    simp
  · have hn' : (0 : ℚ) < n := by exact_mod_cast hn
    have : (c : ℚ) / n * 50 ≤ (c' : ℚ) / n * 50 := by
      have hcc : (c : ℚ) ≤ (c' : ℚ) := by exact_mod_cast h
      gcongr
    exact min_le_min (by linarith) le_rfl

theorem mem_batchVals {n : ℕ} {x : ℚ}
    (hx : x ∈ (cumCounts n).map (fun c => batchProgress n c)) : 35 ≤ x ∧ x ≤ 85 := by
  obtain ⟨c, _, rfl⟩ := List.mem_map.mp hx
  exact ⟨batchProgress_ge n c, batchProgress_le n c⟩

theorem pairwise_batchVals (n : ℕ) :
    List.Pairwise (fun p q => p ≤ q) ((cumCounts n).map (fun c => batchProgress n c)) := by
  unfold cumCounts
  rw [List.map_map, List.pairwise_map]
  refine (List.pairwise_lt_range _).imp ?_
  intro i j hij
  exact batchProgress_mono n (min_le_min (by omega) le_rfl)

theorem snd_scanStatesSuccess (n : ℕ) :
    (scanStatesSuccess n).map Prod.snd =
      [0, 5, 15, 30, 35] ++ (cumCounts n).map (fun c => batchProgress n c) ++
        [85, 95, 100] := by
  simp [scanStatesSuccess, List.map_append, List.map_map, Function.comp]

theorem mem_tailVals {n : ℕ} {b : ℚ}
    (hb : b ∈ (cumCounts n).map (fun c => batchProgress n c) ++ [85, 95, 100]) :
    35 ≤ b ∧ b ≤ 100 := by
  rcases List.mem_append.mp hb with h | h
  · have hm := mem_batchVals h
    exact ⟨hm.1, by linarith [hm.2]⟩
  · simp only [List.mem_cons, List.not_mem_nil, or_false] at h
    rcases h with rfl | rfl | rfl <;> norm_num

theorem pairwise_tailVals (n : ℕ) :
    List.Pairwise (fun p q => p ≤ q)
      ((cumCounts n).map (fun c => batchProgress n c) ++ [85, 95, 100]) := by
  rw [List.pairwise_append]
  refine ⟨pairwise_batchVals n, by norm_num [List.pairwise_cons], ?_⟩
  intro a ha b hb
  have h85 := (mem_batchVals ha).2
  simp only [List.mem_cons, List.not_mem_nil, or_false] at hb
  rcases hb with rfl | rfl | rfl <;> linarith

theorem pairwise_snd_scanStatesSuccess (n : ℕ) :
    List.Pairwise (fun p q => p ≤ q) ((scanStatesSuccess n).map Prod.snd) := by
  rw [snd_scanStatesSuccess]
  show List.Pairwise (fun p q => p ≤ q)
    (0 :: 5 :: 15 :: 30 :: 35 :: ((cumCounts n).map (fun c => batchProgress n c) ++ [85, 95, 100]))
  refine List.Pairwise.cons ?_ (List.Pairwise.cons ?_ (List.Pairwise.cons ?_
    (List.Pairwise.cons ?_ (List.Pairwise.cons ?_ (pairwise_tailVals n)))))
  · intro b hb
    simp only [List.mem_cons] at hb
    rcases hb with rfl | rfl | rfl | rfl | hb
    · norm_num
    · norm_num
    · norm_num
    · norm_num
    · have := (mem_tailVals hb).1
      linarith
  · intro b hb
    simp only [List.mem_cons] at hb
    rcases hb with rfl | rfl | rfl | hb
    · norm_num
    · norm_num
    · norm_num
    · have := (mem_tailVals hb).1
      linarith
  · intro b hb
    simp only [List.mem_cons] at hb
    rcases hb with rfl | rfl | hb
    · norm_num
    · norm_num
    · have := (mem_tailVals hb).1
      linarith
  · intro b hb
    simp only [List.mem_cons] at hb
    rcases hb with rfl | hb
    · norm_num
    · have := (mem_tailVals hb).1
      linarith
  · intro b hb
    have := (mem_tailVals hb).1
    linarith

theorem scanStatesSuccess_elem {n : ℕ} {s : ScanStatus × ℚ}
    (hs : s ∈ scanStatesSuccess n) :
    (0 ≤ s.2 ∧ s.2 ≤ 100) ∧ ((s.1 = .COMPLETED ∨ s.1 = .FAILED) → s.2 = 100) := by
  unfold scanStatesSuccess at hs
  simp only [List.cons_append, List.nil_append, List.mem_cons, List.mem_append,
    List.mem_map, List.mem_singleton, List.not_mem_nil, or_false] at hs
  rcases hs with rfl | rfl | rfl | rfl | rfl | hs
  · exact ⟨by norm_num, by rintro (h | h) <;> simp at h⟩
  · exact ⟨by norm_num, by rintro (h | h) <;> simp at h⟩
  · exact ⟨by norm_num, by rintro (h | h) <;> simp at h⟩
  · exact ⟨by norm_num, by rintro (h | h) <;> simp at h⟩
  · exact ⟨by norm_num, by rintro (h | h) <;> simp at h⟩
  rcases hs with ⟨c, _, rfl⟩ | hs
  · refine ⟨⟨?_, ?_⟩, by rintro (h | h) <;> simp at h⟩
    · have := batchProgress_ge n c
      simp only []
      linarith
    · have := batchProgress_le n c
      simp only []
      linarith
  rcases hs with rfl | rfl | rfl
  · exact ⟨by norm_num, by rintro (h | h) <;> simp at h⟩
  · exact ⟨by norm_num, by rintro (h | h) <;> simp at h⟩
  · exact ⟨by norm_num, fun _ => rfl⟩

theorem scanStatesFailed_elem {n k : ℕ} {s : ScanStatus × ℚ}
    (hs : s ∈ scanStatesFailed n k) :
    (0 ≤ s.2 ∧ s.2 ≤ 100) ∧ ((s.1 = .COMPLETED ∨ s.1 = .FAILED) → s.2 = 100) := by
  unfold scanStatesFailed at hs
  rcases List.mem_append.mp hs with h | h
  · exact scanStatesSuccess_elem (List.mem_of_mem_take h)
  · simp only [List.mem_singleton] at h
    subst h
    exact ⟨by norm_num, fun _ => rfl⟩

theorem pairwise_snd_scanStatesFailed (n k : ℕ) :
    List.Pairwise (fun p q => p ≤ q) ((scanStatesFailed n k).map Prod.snd) := by
  unfold scanStatesFailed
  rw [List.map_append, List.pairwise_append]
  refine ⟨?_, List.pairwise_singleton _ _, ?_⟩
  · rw [List.map_take]
    exact List.Pairwise.sublist (List.take_sublist _ _) (pairwise_snd_scanStatesSuccess n)
  · intro a ha b hb
    simp only [List.map_cons, List.map_nil, List.mem_singleton] at hb
    subst hb
    obtain ⟨s, hsmem, rfl⟩ := List.mem_map.mp ha
    exact (scanStatesSuccess_elem (List.mem_of_mem_take hsmem)).1.2

theorem scanStatesSuccess_getLast (n : ℕ) :
    (scanStatesSuccess n).getLast? = some (.COMPLETED, 100) := by
  unfold scanStatesSuccess
  rw [List.getLast?_append, List.getLast?_append]
  rfl

theorem scanStatesFailed_getLast (n k : ℕ) :
    (scanStatesFailed n k).getLast? = some (.FAILED, 100) := by
  unfold scanStatesFailed
  exact List.getLast?_concat _

/-- C9.  Across a scan's update sequence — a successful run or one that
fails after any prefix — the progress values are monotonically
non-decreasing and stay within 0 and 100, every snapshot in a terminal
status (COMPLETED or FAILED) has progress exactly 100, the sequence
starts at (PENDING, 0), and it ends in a terminal state with progress
100. -/
theorem scan_progress_monotone (n k : ℕ) :
    List.Pairwise (fun p q => p ≤ q) ((scanStatesSuccess n).map Prod.snd) ∧
    List.Pairwise (fun p q => p ≤ q) ((scanStatesFailed n k).map Prod.snd) ∧
    (∀ s ∈ scanStatesSuccess n, 0 ≤ s.2 ∧ s.2 ≤ 100) ∧
    (∀ s ∈ scanStatesFailed n k, 0 ≤ s.2 ∧ s.2 ≤ 100) ∧
    (∀ s ∈ scanStatesSuccess n, (s.1 = .COMPLETED ∨ s.1 = .FAILED) → s.2 = 100) ∧
    (∀ s ∈ scanStatesFailed n k, (s.1 = .COMPLETED ∨ s.1 = .FAILED) → s.2 = 100) ∧
    (scanStatesSuccess n).head? = some (.PENDING, 0) ∧
    (scanStatesSuccess n).getLast? = some (.COMPLETED, 100) ∧
    (scanStatesFailed n k).getLast? = some (.FAILED, 100) :=
  ⟨pairwise_snd_scanStatesSuccess n, pairwise_snd_scanStatesFailed n k,
    fun _ hs => (scanStatesSuccess_elem hs).1,
    fun _ hs => (scanStatesFailed_elem hs).1,
    fun _ hs => (scanStatesSuccess_elem hs).2,
    fun _ hs => (scanStatesFailed_elem hs).2,
    rfl, scanStatesSuccess_getLast n, scanStatesFailed_getLast n k⟩

/-- Witness for C9 on a concrete 3-agent scan failing after two
updates: the terminal FAILED snapshot has progress 100. -/
theorem scan_progress_monotone_witness :
    (ScanStatus.FAILED, (100 : ℚ)).2 = 100 ∧
    (scanStatesFailed 3 2).getLast? = some (.FAILED, 100) := by
  have h := scan_progress_monotone 3 2
  refine ⟨?_, h.2.2.2.2.2.2.2.2⟩
  refine h.2.2.2.2.2.1 (ScanStatus.FAILED, (100 : ℚ)) ?_ (Or.inr rfl)
  unfold scanStatesFailed
  exact List.mem_append_right _ (List.Mem.head _)

/-! ## C6: fetch with no matching files, and provider errors -/

mutual

theorem performGitHubFetch_noSol : ∀ (it : GHItem), itemOk it = true →
    itemHasSol it = false → performGitHubFetch it = .ok []
  | .fileItem p name c u, _, hno => by
    simp only [itemHasSol] at hno
    simp [performGitHubFetch, hno]
  | .dirItem l, hok, hno => by
    have h := fetchDirEntries_noSol l (by simpa [itemOk] using hok)
      (by simpa [itemHasSol] using hno)
    simp [performGitHubFetch, ghWrap, h]
  | .failItem m, hok, _ => by simp [itemOk] at hok

theorem fetchDirEntries_noSol : ∀ (l : GHListing), listingOk l = true →
    listingHasSol l = false → fetchDirEntries l = .ok []
  | .nil, _, _ => rfl
  | .cons (.fileItem p name c u) rest, hok, hno => by
    simp only [listingOk] at hok
    simp only [listingHasSol, Bool.or_eq_false_iff, Bool.and_eq_false_iff] at hno
    have h := fetchDirEntries_noSol rest hok hno.2
    rcases hno.1 with hn | hn <;>
      simp [fetchDirEntries, ghCombine, h, hn]
  | .cons (.dirItem l) rest, hok, hno => by
    simp only [listingOk, Bool.and_eq_true] at hok
    simp only [listingHasSol, Bool.or_eq_false_iff] at hno
    have h1 := fetchDirEntries_noSol l hok.1 hno.1
    have h2 := fetchDirEntries_noSol rest hok.2 hno.2
    simp [fetchDirEntries, ghCombine, ghWrap, h1, h2]
  | .cons (.failItem m) rest, hok, _ => by simp [listingOk] at hok

end

/-- C6 counterexample (claim as stated is false): fetching a directory
whose only entry is a non-.sol file succeeds with an empty file list —
it does not fail with any error, NotFoundError or otherwise. -/
theorem github_fetch_no_sol_cex :
    performGitHubFetch noSolListing = .ok [] ∧
    ∀ m, performGitHubFetch noSolListing ≠ .error m := by
  have h : performGitHubFetch noSolListing = .ok [] := by
    refine performGitHubFetch_noSol _ rfl ?_
    simp only [noSolListing, itemHasSol, listingHasSol, isSolName]
    decide
  exact ⟨h, fun m hc => by rw [h] at hc; exact Except.noConfusion hc⟩

/-- C6 amended.  When every provider response succeeds and no matching
(.sol) file exists under the requested path, the tree fetch succeeds
with an empty file list (there is no NotFoundError in the code); a
provider error for the requested path makes the fetch fail with the
generic wrapped message `Could not fetch from GitHub: ...` (there is no
typed UpstreamError; the provider status survives only inside the
message text). -/
theorem github_fetch_no_sol_amended (it : GHItem) (m : String) :
    (itemOk it = true → itemHasSol it = false → performGitHubFetch it = .ok []) ∧
    performGitHubFetch (.failItem m) = .error (wrapErr m) ∧
    wrapErr m = "Could not fetch from GitHub: " ++ m := by
  exact ⟨performGitHubFetch_noSol it, rfl, rfl⟩

/-- Witness for C6 amended at the concrete no-.sol directory and a
concrete provider error message. -/
theorem github_fetch_no_sol_amended_witness :
    performGitHubFetch noSolListing = .ok [] ∧
    performGitHubFetch (.failItem "Request failed with status code 404") =
      .error "Could not fetch from GitHub: Request failed with status code 404" := by
  have h := github_fetch_no_sol_amended noSolListing "Request failed with status code 404"
  refine ⟨h.1 rfl ?_, h.2.1⟩
  simp only [noSolListing, itemHasSol, listingHasSol, isSolName]
  decide

/-! ## C3: grouping by (type, severity) and the best-confidence representative -/

theorem sevStr_no_dash : ∀ s : Severity, ('-' : Char) ∉ (Severity.str s).data := by
  intro s
  cases s <;> decide

theorem sevStr_data_inj : ∀ s1 s2 : Severity,
    (Severity.str s1).data = (Severity.str s2).data → s1 = s2 := by
  intro s1 s2 h
  cases s1 <;> cases s2 <;> first | rfl | (exfalso; revert h; decide)

theorem takeWhile_append_all {p : Char → Bool} : ∀ (l1 : List Char) (b : Char) (l2 : List Char),
    (∀ a ∈ l1, p a = true) → p b = false → (l1 ++ b :: l2).takeWhile p = l1
  | [], b, l2, _, hb => by simp [List.takeWhile_cons, hb]
  | a :: t, b, l2, h, hb => by
    have ha := h a (List.Mem.head _)
    simp only [List.cons_append, List.takeWhile_cons, ha, if_true]
    rw [takeWhile_append_all t b l2 (fun x hx => h x (List.Mem.tail _ hx)) hb]

theorem afterLastDash_append (t s : List Char) (hs : ('-' : Char) ∉ s) :
    afterLastDash (t ++ '-' :: s) = s := by
  unfold afterLastDash
  rw [List.reverse_append, List.reverse_cons, List.append_assoc]
  have hcons : ([('-' : Char)] : List Char) ++ t.reverse = '-' :: t.reverse := rfl
  rw [hcons]
  rw [takeWhile_append_all s.reverse '-' t.reverse ?_ (by simp)]
  · exact List.reverse_reverse s
  · intro a ha
    have hmem : a ∈ s := List.mem_reverse.mp ha
    have hne : a ≠ '-' := fun h => hs (h ▸ hmem)
    simp [hne]

theorem groupKeyOf_data (f : Finding) :
    (groupKeyOf f).data = f.type.data ++ '-' :: (Severity.str f.severity).data := by
  show (f.type ++ "-" ++ f.severity.str).data = _
  have h : (f.type ++ "-" ++ f.severity.str).data =
      (f.type.data ++ ['-']) ++ (Severity.str f.severity).data := rfl
  rw [h, List.append_assoc]
  rfl

theorem groupKeyOf_eq_iff (f g : Finding) :
    groupKeyOf f = groupKeyOf g ↔ (f.type = g.type ∧ f.severity = g.severity) := by
  constructor
  · intro h
    have hd : (groupKeyOf f).data = (groupKeyOf g).data := by rw [h]
    rw [groupKeyOf_data, groupKeyOf_data] at hd
    have hsev_data : (Severity.str f.severity).data = (Severity.str g.severity).data := by
      have h1 := afterLastDash_append f.type.data (Severity.str f.severity).data
        (sevStr_no_dash _)
      have h2 := afterLastDash_append g.type.data (Severity.str g.severity).data
        (sevStr_no_dash _)
      rw [← h1, ← h2, hd]
    refine ⟨?_, sevStr_data_inj _ _ hsev_data⟩
    rw [hsev_data] at hd
    exact String.ext (List.append_cancel_right hd)
  · rintro ⟨h1, h2⟩
    unfold groupKeyOf
    rw [h1, h2]

theorem groupLookup_insertFinding (gs : List (String × List Finding)) (f : Finding)
    (k : String) :
    groupLookup (insertFinding gs f) k =
      if k = groupKeyOf f then groupLookup gs k ++ [f] else groupLookup gs k := by
  induction gs with
  | nil =>
    by_cases hk : k = groupKeyOf f
    · simp [insertFinding, groupLookup, hk]
    · have hswap : ¬(groupKeyOf f = k) := fun hc => hk hc.symm
      simp [insertFinding, groupLookup, hk, hswap]
  | cons e rest ih =>
    obtain ⟨k0, ms⟩ := e
    by_cases h0 : k0 = groupKeyOf f
    · by_cases hk : k0 = k
      · subst hk
        simp [insertFinding, groupLookup, h0]
      · have hknf : ¬(k = groupKeyOf f) := fun hc => hk (h0.trans hc.symm)
        have hswap : ¬(groupKeyOf f = k) := fun hc => hknf hc.symm
        simp [insertFinding, groupLookup, h0, hk, hknf, hswap]
    · by_cases hk : k0 = k
      · subst hk
        simp [insertFinding, groupLookup, h0]
      · simp [insertFinding, groupLookup, h0, hk, ih]

theorem foldl_insertFinding_lookup (fs : List Finding) :
    ∀ (gs : List (String × List Finding)) (k : String),
      groupLookup (fs.foldl insertFinding gs) k =
        groupLookup gs k ++ fs.filter (fun f => decide (groupKeyOf f = k)) := by
  induction fs with
  | nil =>
    intro gs k
    simp
  | cons f t ih =>
    intro gs k
    simp only [List.foldl_cons]
    rw [ih, groupLookup_insertFinding]
    by_cases hk : k = groupKeyOf f
    · simp [List.filter_cons, hk.symm, List.append_assoc]
    · have hswap : ¬(groupKeyOf f = k) := fun hc => hk hc.symm
      simp [List.filter_cons, hk, hswap]

theorem buildGroups_lookup (fs : List Finding) (k : String) :
    groupLookup (buildGroups fs) k =
      fs.filter (fun f => decide (groupKeyOf f = k)) := by
  have h := foldl_insertFinding_lookup fs [] k
  simpa [buildGroups, groupLookup] using h

theorem insertFinding_keys (gs : List (String × List Finding)) (f : Finding) :
    ∀ k ∈ (insertFinding gs f).map Prod.fst,
      k ∈ gs.map Prod.fst ∨ k = groupKeyOf f := by
  induction gs with
  | nil =>
    intro k hk
    simp [insertFinding] at hk
    exact Or.inr hk
  | cons e rest ih =>
    obtain ⟨k0, ms⟩ := e
    intro k hk
    by_cases h0 : k0 = groupKeyOf f
    · have hins : insertFinding ((k0, ms) :: rest) f = (k0, ms ++ [f]) :: rest := by
        simp [insertFinding, h0]
      rw [hins] at hk
      simp only [List.map_cons, List.mem_cons] at hk ⊢
      tauto
    · have hins : insertFinding ((k0, ms) :: rest) f =
          (k0, ms) :: insertFinding rest f := by
        simp [insertFinding, h0]
      rw [hins] at hk
      simp only [List.map_cons, List.mem_cons] at hk ⊢
      rcases hk with rfl | hk
      · tauto
      · rcases ih k hk with h | h <;> tauto

theorem insertFinding_wf (gs : List (String × List Finding)) (f : Finding)
    (h : GroupsWF gs) : GroupsWF (insertFinding gs f) := by
  obtain ⟨hkey, hnodup, hne⟩ := h
  induction gs with
  | nil =>
    refine ⟨?_, by simp [insertFinding], ?_⟩
    · intro e he g hg
      simp [insertFinding] at he
      subst he
      simp only [List.mem_singleton] at hg
      subst hg
      rfl
    · intro e he
      simp [insertFinding] at he
      subst he
      simp
  | cons e0 rest ih =>
    obtain ⟨k0, ms⟩ := e0
    by_cases h0 : k0 = groupKeyOf f
    · rw [show insertFinding ((k0, ms) :: rest) f = (k0, ms ++ [f]) :: rest by
        simp [insertFinding, h0]]
      refine ⟨?_, ?_, ?_⟩
      · intro e he g hg
        rcases List.mem_cons.mp he with rfl | hmem
        · rcases List.mem_append.mp hg with hg | hg
          · exact hkey (k0, ms) (List.Mem.head _) g hg
          · simp only [List.mem_singleton] at hg
            subst hg
            exact h0.symm
        · exact hkey e (List.Mem.tail _ hmem) g hg
      · simpa using hnodup
      · intro e he
        rcases List.mem_cons.mp he with rfl | hmem
        · simp
        · exact hne e (List.Mem.tail _ hmem)
    · rw [show insertFinding ((k0, ms) :: rest) f = (k0, ms) :: insertFinding rest f by
        simp [insertFinding, h0]]
      have hrest : GroupsWF (insertFinding rest f) := by
        refine ih ?_ ?_ ?_
        · intro e he g hg
          exact hkey e (List.Mem.tail _ he) g hg
        · exact (List.nodup_cons.mp (by simpa using hnodup)).2
        · intro e he
          exact hne e (List.Mem.tail _ he)
      obtain ⟨hkey', hnodup', hne'⟩ := hrest
      refine ⟨?_, ?_, ?_⟩
      · intro e he g hg
        rcases List.mem_cons.mp he with rfl | hmem
        · exact hkey (k0, ms) (List.Mem.head _) g hg
        · exact hkey' e hmem g hg
      · rw [List.map_cons, List.nodup_cons]
        refine ⟨?_, hnodup'⟩
        intro hc
        rcases insertFinding_keys rest f k0 hc with hmem | hk
        · exact (List.nodup_cons.mp (by simpa using hnodup)).1 hmem
        · exact h0 hk
      · intro e he
        rcases List.mem_cons.mp he with rfl | hmem
        · exact hne (k0, ms) (List.Mem.head _)
        · exact hne' e hmem

theorem buildGroups_wf (fs : List Finding) : GroupsWF (buildGroups fs) := by
  suffices h : ∀ (gs : List (String × List Finding)), GroupsWF gs →
      GroupsWF (fs.foldl insertFinding gs) from
    h [] ⟨by simp, by simp, by simp⟩
  induction fs with
  | nil => exact fun gs h => h
  | cons f t ih =>
    intro gs h
    exact ih (insertFinding gs f) (insertFinding_wf gs f h)

theorem groupLookup_of_mem {gs : List (String × List Finding)}
    (hN : (gs.map Prod.fst).Nodup) {e : String × List Finding} (he : e ∈ gs) :
    groupLookup gs e.1 = e.2 := by
  induction gs with
  | nil => cases he
  | cons e0 rest ih =>
    obtain ⟨k0, ms⟩ := e0
    rcases List.mem_cons.mp he with rfl | hmem
    · simp [groupLookup]
    · have hk : ¬(k0 = e.1) := by
        intro hc
        have hm : e.1 ∈ rest.map Prod.fst := List.mem_map_of_mem _ hmem
        rw [← hc] at hm
        exact (List.nodup_cons.mp (by simpa using hN)).1 hm
      simp only [groupLookup, if_neg hk]
      exact ih (List.nodup_cons.mp (by simpa using hN)).2 hmem

theorem exists_entry_of_lookup_ne_nil {gs : List (String × List Finding)} {k : String}
    (h : groupLookup gs k ≠ []) :
    ∃ e ∈ gs, e.1 = k ∧ e.2 = groupLookup gs k := by
  induction gs with
  | nil => exact absurd rfl h
  | cons e0 rest ih =>
    obtain ⟨k0, ms⟩ := e0
    by_cases hk : k0 = k
    · subst hk
      exact ⟨(k0, ms), List.Mem.head _, rfl, by simp [groupLookup]⟩
    · have h' : groupLookup rest k ≠ [] := by
        simpa [groupLookup, hk] using h
      obtain ⟨e, he, h1, h2⟩ := ih h'
      exact ⟨e, List.Mem.tail _ he, h1, by simpa [groupLookup, hk] using h2⟩

theorem foldl_best_mem : ∀ (t : List Finding) (acc : Finding),
    (t.foldl (fun best cur => if best.confidence < cur.confidence then cur else best) acc
        = acc) ∨
      t.foldl (fun best cur => if best.confidence < cur.confidence then cur else best) acc
        ∈ t := by
  intro t
  induction t with
  | nil => intro acc; exact Or.inl rfl
  | cons x xs ih =>
    intro acc
    simp only [List.foldl_cons]
    rcases ih (if acc.confidence < x.confidence then x else acc) with h | h
    · rw [h]
      split
      · exact Or.inr (List.Mem.head _)
      · exact Or.inl rfl
    · exact Or.inr (List.Mem.tail _ h)

theorem foldl_best_ge : ∀ (t : List Finding) (acc : Finding),
    acc.confidence ≤
      (t.foldl (fun best cur => if best.confidence < cur.confidence then cur else best)
        acc).confidence ∧
    ∀ m ∈ t, m.confidence ≤
      (t.foldl (fun best cur => if best.confidence < cur.confidence then cur else best)
        acc).confidence := by
  intro t
  induction t with
  | nil =>
    intro acc
    exact ⟨le_rfl, by simp⟩
  | cons x xs ih =>
    intro acc
    simp only [List.foldl_cons]
    obtain ⟨h1, h2⟩ := ih (if acc.confidence < x.confidence then x else acc)
    have hacc : acc.confidence ≤ (if acc.confidence < x.confidence then x else acc).confidence := by
      split
      · next hlt => exact le_of_lt hlt
      · exact le_rfl
    have hx : x.confidence ≤ (if acc.confidence < x.confidence then x else acc).confidence := by
      split
      · exact le_rfl
      · next hlt => exact le_of_not_lt hlt
    refine ⟨le_trans hacc h1, ?_⟩
    intro m hm
    rcases List.mem_cons.mp hm with rfl | hmem
    · exact le_trans hx h1
    · exact h2 m hmem

theorem reduceBest_spec (ms : List Finding) (h : ms ≠ []) :
    ∃ b, reduceBest ms = some b ∧ b ∈ ms ∧ ∀ m ∈ ms, m.confidence ≤ b.confidence := by
  cases ms with
  | nil => exact absurd rfl h
  | cons f rest =>
    refine ⟨_, rfl, ?_, ?_⟩
    · rcases foldl_best_mem rest f with h | h
      · rw [h]
        exact List.Mem.head _
      · exact List.Mem.tail _ h
    · intro m hm
      obtain ⟨h1, h2⟩ := foldl_best_ge rest f
      rcases List.mem_cons.mp hm with rfl | hmem
      · exact h1
      · exact h2 m hmem

theorem confirmLoop_mem (totalAgents : ℕ) (scanId : String) :
    ∀ (gs : List (String × List Finding)) (idx : ℕ) (e : String × List Finding)
      (b : Finding), e ∈ gs → reduceBest e.2 = some b →
      requiredVotes totalAgents ≤ e.2.length →
      ∃ j, mkConfirmed totalAgents scanId j e.2.length b ∈
        confirmLoop totalAgents scanId gs idx := by
  intro gs
  induction gs with
  | nil =>
    intro idx e b he
    cases he
  | cons e0 rest ih =>
    intro idx e b he hb hreq
    obtain ⟨k0, ms0⟩ := e0
    rcases List.mem_cons.mp he with rfl | hmem
    · refine ⟨idx, ?_⟩
      simp only [confirmLoop]
      rw [hb]
      dsimp only
      rw [if_pos (show requiredVotes totalAgents ≤ ms0.length by simpa using hreq)]
      exact List.Mem.head _
    · simp only [confirmLoop]
      cases h0 : reduceBest ms0 with
      | none => exact ih idx e b hmem hb hreq
      | some b0 =>
        dsimp only
        by_cases h0req : requiredVotes totalAgents ≤ ms0.length
        · rw [if_pos h0req]
          obtain ⟨j, hj⟩ := ih (idx + 1) e b hmem hb hreq
          exact ⟨j, List.Mem.tail _ hj⟩
        · rw [if_neg h0req]
          exact ih idx e b hmem hb hreq

theorem performAgentVoting_confirmedFindings (results : List AnalysisResult)
    (scanId : String) :
    (performAgentVoting results scanId).confirmedFindings =
      sortFindings (confirmLoop results.length scanId
        (buildGroups ((results.map (fun r => r.findings)).flatten)) 0) := rfl

theorem mem_sortFindings {x : Finding} {l : List Finding} (h : x ∈ l) :
    x ∈ sortFindings l :=
  (List.perm_insertionSort findingLE l).mem_iff.mpr h

/-- C3.  Raw findings from all analyzers are grouped by the
(type, severity) pair — two findings land in a common group exactly when
their type and severity agree, regardless of identity — and every group
meeting the quorum `requiredVotes` emits into the confirmed list the
representative produced by `mkConfirmed`: the group member of highest
individual confidence, with its confidence replaced by the
consensus-adjusted score and its id replaced by the scan-unique
`scanId-confirmed-<index>` identifier. -/
theorem voting_groups_by_pair (results : List AnalysisResult) (scanId : String) :
    (∀ f ∈ (results.map (fun r => r.findings)).flatten,
      ∀ g ∈ (results.map (fun r => r.findings)).flatten,
        ((∃ e ∈ buildGroups ((results.map (fun r => r.findings)).flatten),
            f ∈ e.2 ∧ g ∈ e.2) ↔
          (f.type = g.type ∧ f.severity = g.severity))) ∧
    (∀ e ∈ buildGroups ((results.map (fun r => r.findings)).flatten),
      requiredVotes results.length ≤ e.2.length →
        ∃ b, reduceBest e.2 = some b ∧ b ∈ e.2 ∧
          (∀ m ∈ e.2, m.confidence ≤ b.confidence) ∧
          ∃ j, mkConfirmed results.length scanId j e.2.length b ∈
            (performAgentVoting results scanId).confirmedFindings) := by
  obtain ⟨hkey, hnodup, hne⟩ :=
    buildGroups_wf ((results.map (fun r => r.findings)).flatten)
  constructor
  · intro f hf g hg
    constructor
    · rintro ⟨e, he, hfe, hge⟩
      have h1 := hkey e he f hfe
      have h2 := hkey e he g hge
      exact (groupKeyOf_eq_iff f g).mp (h1.trans h2.symm)
    · rintro ⟨hty, hsev⟩
      have hkfg : groupKeyOf f = groupKeyOf g := (groupKeyOf_eq_iff f g).mpr ⟨hty, hsev⟩
      have hfl : f ∈ groupLookup
          (buildGroups ((results.map (fun r => r.findings)).flatten)) (groupKeyOf f) := by
        rw [buildGroups_lookup]
        exact List.mem_filter.mpr ⟨hf, by simp⟩
      have hgl : g ∈ groupLookup
          (buildGroups ((results.map (fun r => r.findings)).flatten)) (groupKeyOf f) := by
        rw [buildGroups_lookup]
        exact List.mem_filter.mpr ⟨hg, by simp [hkfg]⟩
      have hnn : groupLookup
          (buildGroups ((results.map (fun r => r.findings)).flatten)) (groupKeyOf f) ≠ [] := by
        intro hc
        rw [hc] at hfl
        cases hfl
      obtain ⟨e, he, he1, he2⟩ := exists_entry_of_lookup_ne_nil hnn
      exact ⟨e, he, by rw [he2]; exact hfl, by rw [he2]; exact hgl⟩
  · intro e he hreq
    obtain ⟨b, hb, hbmem, hbmax⟩ := reduceBest_spec e.2 (hne e he)
    refine ⟨b, hb, hbmem, hbmax, ?_⟩
    obtain ⟨j, hj⟩ := confirmLoop_mem results.length scanId
      (buildGroups ((results.map (fun r => r.findings)).flatten)) 0 e b he hb hreq
    refine ⟨j, ?_⟩
    rw [performAgentVoting_confirmedFindings]
    exact mem_sortFindings hj

/-- Witness for C3: in the two-of-three scenario the two independently
reported (reentrancy, HIGH) findings share one group. -/
theorem voting_groups_by_pair_witness :
    ∃ e ∈ buildGroups ((twoOfThreeResults.map (fun r => r.findings)).flatten),
      sampleFinding "f1" "reentrancy" .HIGH 80 ∈ e.2 ∧
      sampleFinding "f2" "reentrancy" .HIGH 60 ∈ e.2 := by
  have h := (voting_groups_by_pair twoOfThreeResults "s").1
    (sampleFinding "f1" "reentrancy" .HIGH 80) (List.Mem.head _)
    (sampleFinding "f2" "reentrancy" .HIGH 60) (List.Mem.tail _ (List.Mem.head _))
  exact h.mpr ⟨rfl, rfl⟩

/-! ## C1 and C7: the scan-finalization confidence computation -/

theorem requiredVotes_three : requiredVotes 3 = 2 := by
  have hceil : (⌈((3:ℕ) : ℚ) * (3/5)⌉ : ℤ) = 2 := by
    rw [Int.ceil_eq_iff] <;> norm_num
  unfold requiredVotes
  rw [hceil]
  rfl

theorem performAgentVoting_two_of_three (f1 f2 : Finding) (a1 a2 a3 scanId : String)
    (hty : f2.type = f1.type) (hsev : f2.severity = f1.severity) :
    (performAgentVoting [⟨a1, [f1]⟩, ⟨a2, [f2]⟩, ⟨a3, []⟩] scanId).confirmedFindings =
      [{ (if f1.confidence < f2.confidence then f2 else f1) with
          confidence :=
            ((round (if f1.confidence < f2.confidence then f2 else f1).confidence : ℤ) : ℚ),
          id := scanId ++ "-confirmed-" ++ toString 0 }] ∧
    (performAgentVoting [⟨a1, [f1]⟩, ⟨a2, [f2]⟩, ⟨a3, []⟩] scanId).averageConfidence =
      ((round (if f1.confidence < f2.confidence then f2 else f1).confidence : ℤ) : ℚ) / 100 ∧
    (performAgentVoting [⟨a1, [f1]⟩, ⟨a2, [f2]⟩, ⟨a3, []⟩] scanId).totalVotes = 2 := by
  have hkey : groupKeyOf f1 = groupKeyOf f2 :=
    ((groupKeyOf_eq_iff f2 f1).mpr ⟨hty, hsev⟩).symm
  have hgroups : buildGroups [f1, f2] = [(groupKeyOf f1, [f1, f2])] := by
    simp [buildGroups, insertFinding, hkey]
  have hbest : reduceBest [f1, f2] =
      some (if f1.confidence < f2.confidence then f2 else f1) := rfl
  have hstrength : min ((((2:ℕ) : ℚ) / ((3:ℕ) : ℚ)) / (3/5)) 1 = 1 := by
    rw [min_eq_right] <;> norm_num
  have hmk : mkConfirmed 3 scanId 0 2 (if f1.confidence < f2.confidence then f2 else f1) =
      { (if f1.confidence < f2.confidence then f2 else f1) with
        confidence :=
          ((round (if f1.confidence < f2.confidence then f2 else f1).confidence : ℤ) : ℚ),
        id := scanId ++ "-confirmed-" ++ toString 0 } := by
    unfold mkConfirmed
    dsimp only
    rw [hstrength, mul_one]
  have hloop : confirmLoop 3 scanId [(groupKeyOf f1, [f1, f2])] 0 =
      [mkConfirmed 3 scanId 0 2 (if f1.confidence < f2.confidence then f2 else f1)] := by
    simp only [confirmLoop]
    rw [hbest]
    dsimp only
    rw [if_pos (by rw [requiredVotes_three]; simp)]
    rfl
  have hfind : (performAgentVoting [⟨a1, [f1]⟩, ⟨a2, [f2]⟩, ⟨a3, []⟩] scanId).confirmedFindings =
      sortFindings (confirmLoop 3 scanId (buildGroups [f1, f2]) 0) := rfl
  have hcf : (performAgentVoting [⟨a1, [f1]⟩, ⟨a2, [f2]⟩, ⟨a3, []⟩] scanId).confirmedFindings =
      [{ (if f1.confidence < f2.confidence then f2 else f1) with
          confidence :=
            ((round (if f1.confidence < f2.confidence then f2 else f1).confidence : ℤ) : ℚ),
          id := scanId ++ "-confirmed-" ++ toString 0 }] := by
    rw [hfind, hgroups, hloop, hmk]
    rfl
  refine ⟨hcf, ?_, rfl⟩
  have havg : (performAgentVoting [⟨a1, [f1]⟩, ⟨a2, [f2]⟩, ⟨a3, []⟩] scanId).averageConfidence =
      (if 0 < (confirmLoop 3 scanId (buildGroups [f1, f2]) 0).length then
        ((confirmLoop 3 scanId (buildGroups [f1, f2]) 0).map (fun f => f.confidence)).sum /
          (confirmLoop 3 scanId (buildGroups [f1, f2]) 0).length / 100
      else 0) := rfl
  rw [havg, hgroups, hloop, hmk]
  simp only [List.length_singleton, List.map_cons, List.map_nil, List.sum_cons,
    List.sum_nil, add_zero, Nat.cast_one]
  rw [if_pos (by norm_num)]
  rw [div_one]

/-- C1 counterexample (claim as stated is false): agents 1 and 2 of 3
report a (reentrancy, HIGH) finding with confidences 80 and 60.  The
group is confirmed, but the recorded confidence is 80 (the best
finding's own confidence), not round(mean(80, 60) x 2/3) = 47 as the
claim's formula requires. -/
theorem two_of_three_confidence_cex :
    (performAgentVoting twoOfThreeResults "scan1").confirmedFindings.map
        (fun f => f.confidence) = [(80 : ℚ)] ∧
    ((round ((((80:ℚ) + 60) / 2) * (2/3)) : ℤ) : ℚ) = 47 ∧
    (80 : ℚ) ≠ 47 := by
  have h := performAgentVoting_two_of_three (sampleFinding "f1" "reentrancy" .HIGH 80)
    (sampleFinding "f2" "reentrancy" .HIGH 60) "agent-1" "agent-2" "agent-3" "scan1" rfl rfl
  have hif : (if (sampleFinding "f1" "reentrancy" .HIGH 80).confidence <
      (sampleFinding "f2" "reentrancy" .HIGH 60).confidence
      then sampleFinding "f2" "reentrancy" .HIGH 60
      else sampleFinding "f1" "reentrancy" .HIGH 80) =
      sampleFinding "f1" "reentrancy" .HIGH 80 := by
    rw [if_neg]
    norm_num [sampleFinding]
  refine ⟨?_, ?_, by norm_num⟩
  · have hcf := h.1
    rw [hif] at hcf
    rw [show twoOfThreeResults =
      [⟨"agent-1", [sampleFinding "f1" "reentrancy" .HIGH 80]⟩,
       ⟨"agent-2", [sampleFinding "f2" "reentrancy" .HIGH 60]⟩,
       ⟨"agent-3", []⟩] from rfl, hcf]
    have hround : round ((sampleFinding "f1" "reentrancy" .HIGH 80).confidence) = 80 := by
      rw [show (sampleFinding "f1" "reentrancy" .HIGH 80).confidence = (80:ℚ) from rfl,
        round_eq]
      norm_num
    simp [hround]
  · rw [round_eq]
    norm_num

/-- C1 amended.  When 2 of 3 analyzers report a finding in the same
(category, severity) group, the group is confirmed (a confirmed finding
is emitted for it), but its recorded confidence is
round(highestIndividualConfidence x min(votePercentage / 0.6, 1)) =
round(highest individual confidence), since min((2/3)/0.6, 1) = 1 —
not the mean of matching confidences scaled by 2/3; that formula lives
only in VoteEngine.calculateConfidenceScore, which scan finalization
never invokes. -/
theorem two_of_three_confirmed_confidence (f1 f2 : Finding) (a1 a2 a3 scanId : String)
    (hty : f2.type = f1.type) (hsev : f2.severity = f1.severity) :
    (performAgentVoting [⟨a1, [f1]⟩, ⟨a2, [f2]⟩, ⟨a3, []⟩] scanId).confirmedFindings.map
        (fun f => f.confidence) =
      [((round (max f1.confidence f2.confidence) : ℤ) : ℚ)] ∧
    (performAgentVoting [⟨a1, [f1]⟩, ⟨a2, [f2]⟩, ⟨a3, []⟩] scanId).confirmedFindings ≠ [] := by
  have h := performAgentVoting_two_of_three f1 f2 a1 a2 a3 scanId hty hsev
  have hmax : (if f1.confidence < f2.confidence then f2 else f1).confidence =
      max f1.confidence f2.confidence := by
    split
    · next hlt => exact (max_eq_right hlt.le).symm
    · next hlt => exact (max_eq_left (le_of_not_lt hlt)).symm
  constructor
  · rw [h.1]
    simp [hmax]
  · rw [h.1]
    simp

/-- Witness for C1 amended at confidences 80 and 60: the emitted
confidence is round(max(80, 60)) = 80. -/
theorem two_of_three_confirmed_confidence_witness :
    (performAgentVoting [⟨"agent-1", [sampleFinding "f1" "reentrancy" .HIGH 80]⟩,
        ⟨"agent-2", [sampleFinding "f2" "reentrancy" .HIGH 60]⟩,
        ⟨"agent-3", []⟩] "scan1").confirmedFindings.map (fun f => f.confidence) =
      [(80 : ℚ)] := by
  have h := (two_of_three_confirmed_confidence (sampleFinding "f1" "reentrancy" .HIGH 80)
    (sampleFinding "f2" "reentrancy" .HIGH 60) "agent-1" "agent-2" "agent-3" "scan1"
    rfl rfl).1
  rw [h]
  have hmax : max (sampleFinding "f1" "reentrancy" .HIGH 80).confidence
      (sampleFinding "f2" "reentrancy" .HIGH 60).confidence = (80:ℚ) := by
    rw [show (sampleFinding "f1" "reentrancy" .HIGH 80).confidence = (80:ℚ) from rfl,
      show (sampleFinding "f2" "reentrancy" .HIGH 60).confidence = (60:ℚ) from rfl]
    norm_num
  rw [hmax, round_eq]
  norm_num

theorem performAgentVoting_avg (results : List AnalysisResult) (scanId : String) :
    ((performAgentVoting results scanId).confirmedFindings ≠ [] →
      (performAgentVoting results scanId).averageConfidence =
        (((performAgentVoting results scanId).confirmedFindings.map
            (fun f => f.confidence)).sum /
          (performAgentVoting results scanId).confirmedFindings.length) / 100) ∧
    ((performAgentVoting results scanId).confirmedFindings = [] →
      (performAgentVoting results scanId).averageConfidence = 0) ∧
    (performAgentVoting results scanId).totalVotes =
      ((results.map (fun r => r.findings)).flatten).length := by
  have hfind : (performAgentVoting results scanId).confirmedFindings =
      sortFindings (confirmLoop results.length scanId
        (buildGroups ((results.map (fun r => r.findings)).flatten)) 0) := rfl
  set c := confirmLoop results.length scanId
    (buildGroups ((results.map (fun r => r.findings)).flatten)) 0 with hc
  have havg : (performAgentVoting results scanId).averageConfidence =
      if 0 < c.length then ((c.map (fun f => f.confidence)).sum / c.length) / 100
      else 0 := rfl
  have hperm : List.Perm (sortFindings c) c := List.perm_insertionSort findingLE c
  have hlen : (sortFindings c).length = c.length := hperm.length_eq
  have hsum : ((sortFindings c).map (fun f => f.confidence)).sum =
      (c.map (fun f => f.confidence)).sum := (hperm.map _).sum_eq
  refine ⟨?_, ?_, rfl⟩
  · intro hne
    rw [hfind] at hne
    have hpos : 0 < c.length := by
      rw [← hlen]
      exact List.length_pos.mpr hne
    rw [havg, hfind, hlen, hsum, if_pos hpos]
  · intro hnil
    rw [hfind] at hnil
    have h0 : c.length = 0 := by
      rw [← hlen, hnil]
      rfl
    rw [havg, if_neg (by omega)]

/-- C7 amended.  On a completed scan, finalConfidenceScore equals the
average of the confirmed findings' confidence values divided by 100 — a
0-1 scale, not the findings' own 0-100 scale — and totalVotes equals
the total number of raw findings produced across all analyzers (each
raw finding is the implicit vote counted by the voting pass). -/
theorem completed_scan_confidence_scale (scanId : String) (files : List GHFile)
    (agents : List AgentSpec) :
    (executeScan scanId (.ok files) agents).status = .COMPLETED ∧
    ((executeScan scanId (.ok files) agents).findings ≠ [] →
      (executeScan scanId (.ok files) agents).finalConfidenceScore =
        (((executeScan scanId (.ok files) agents).findings.map
            (fun f => f.confidence)).sum /
          (executeScan scanId (.ok files) agents).findings.length) / 100) ∧
    ((executeScan scanId (.ok files) agents).findings = [] →
      (executeScan scanId (.ok files) agents).finalConfidenceScore = 0) ∧
    (executeScan scanId (.ok files) agents).totalVotes =
      (((dispatchBatches scanId agents).map (fun r => r.findings)).flatten).length := by
  have h := performAgentVoting_avg (dispatchBatches scanId agents) scanId
  exact ⟨rfl, h.1, h.2.1, h.2.2⟩

/-- Witness for C7 amended: an agentless scan completes with no
findings and a zero confidence score. -/
theorem completed_scan_confidence_scale_witness :
    (executeScan "s" (.ok []) []).status = .COMPLETED ∧
    (executeScan "s" (.ok []) []).finalConfidenceScore = 0 := by
  have h := completed_scan_confidence_scale "s" [] []
  have hd : dispatchBatches "s" [] = [] := by
    unfold dispatchBatches
    rw [chunksOf]
    simp
  have hnil : (executeScan "s" (.ok []) []).findings = [] := by
    show (performAgentVoting (dispatchBatches "s" []) "s").confirmedFindings = []
    rw [hd]
    rfl
  exact ⟨h.1, h.2.2.1 hnil⟩

/-- C7 counterexample (claim as stated is false): on a completed scan
whose single confirmed finding has confidence 80, the recorded
finalConfidenceScore is 4/5 = 80/100 — not 80, the average of the
confirmed findings' confidences on their own 0-100 scale. -/
theorem completed_scan_confidence_scale_cex :
    (executeScan "scan1" (.ok [])
        [⟨"agent-1", "A1", some [sampleFinding "f1" "reentrancy" .HIGH 80]⟩,
         ⟨"agent-2", "A2", some [sampleFinding "f2" "reentrancy" .HIGH 60]⟩,
         ⟨"agent-3", "A3", some []⟩]).finalConfidenceScore = 4/5 ∧
    (executeScan "scan1" (.ok [])
        [⟨"agent-1", "A1", some [sampleFinding "f1" "reentrancy" .HIGH 80]⟩,
         ⟨"agent-2", "A2", some [sampleFinding "f2" "reentrancy" .HIGH 60]⟩,
         ⟨"agent-3", "A3", some []⟩]).findings.map (fun f => f.confidence) = [(80 : ℚ)] ∧
    ((4 : ℚ)/5) ≠ 80 := by
  have hdisp : dispatchBatches "scan1"
      [⟨"agent-1", "A1", some [sampleFinding "f1" "reentrancy" .HIGH 80]⟩,
       ⟨"agent-2", "A2", some [sampleFinding "f2" "reentrancy" .HIGH 60]⟩,
       ⟨"agent-3", "A3", some []⟩] =
      [⟨"agent-1", [sampleFinding ("scan1" ++ "-" ++ "f1") "reentrancy" .HIGH 80]⟩,
       ⟨"agent-2", [sampleFinding ("scan1" ++ "-" ++ "f2") "reentrancy" .HIGH 60]⟩,
       ⟨"agent-3", []⟩] := by
    rw [dispatchBatches_eq_map]
    rfl
  have h := performAgentVoting_two_of_three
    (sampleFinding ("scan1" ++ "-" ++ "f1") "reentrancy" .HIGH 80)
    (sampleFinding ("scan1" ++ "-" ++ "f2") "reentrancy" .HIGH 60)
    "agent-1" "agent-2" "agent-3" "scan1" rfl rfl
  have hif : (if (sampleFinding ("scan1" ++ "-" ++ "f1") "reentrancy" .HIGH 80).confidence <
      (sampleFinding ("scan1" ++ "-" ++ "f2") "reentrancy" .HIGH 60).confidence
      then sampleFinding ("scan1" ++ "-" ++ "f2") "reentrancy" .HIGH 60
      else sampleFinding ("scan1" ++ "-" ++ "f1") "reentrancy" .HIGH 80) =
      sampleFinding ("scan1" ++ "-" ++ "f1") "reentrancy" .HIGH 80 := by
    rw [if_neg]
    norm_num [sampleFinding]
  have hround : round ((sampleFinding ("scan1" ++ "-" ++ "f1") "reentrancy"
      .HIGH 80).confidence) = 80 := by
    rw [show (sampleFinding ("scan1" ++ "-" ++ "f1") "reentrancy" .HIGH 80).confidence =
      (80:ℚ) from rfl, round_eq]
    norm_num
  refine ⟨?_, ?_, by norm_num⟩
  · show (performAgentVoting (dispatchBatches "scan1" _) "scan1").averageConfidence = 4/5
    rw [hdisp]
    rw [h.2.1, hif, hround]
    norm_num
  · show (performAgentVoting (dispatchBatches "scan1" _) "scan1").confirmedFindings.map
      (fun f => f.confidence) = [(80 : ℚ)]
    rw [hdisp]
    rw [h.1]
    simp only [hif]
    simp [sampleFinding]
